import Mathlib

/-!
The in-memory post service of mini-social-media-api.

A shallow embedding of `services/post_service.go` (with `models/post.go` and
`models/comment.go`).  The package-level variables `posts`, `postIDCounter` and
`now` become the fields of an explicit `Store` that every operation receives and
returns; `postMutex` serialises the calls, so each operation is one atomic state
transformer.

Conventions of the embedding:

* a Go `string` is a Lean `String` (a valid UTF-8 text, which is what the JSON
  decoder of the transport layer delivers); Go's `len` on a string is the number of
  bytes of its UTF-8 encoding, `goLen`;
* Go's `int` fields (`ID`, `Likes`, `postIDCounter`) are `Int`.  They only ever
  change by `+ 1` per call, so the 64-bit range cannot be left in fewer than
  `2^63` calls; the increments are modelled without wrap-around;
* `time.Time` is an abstract clock reading, a `Nat`; the reading `time.Now()`
  that `UpdatePost` takes is an explicit argument of the operation;
* a result `(models.Post, error)` is an `Except Err Post`, paired with the store
  after the call;
* the handlers of `controllers/post_controller.go` take what gin hands them (the
  bound request, the query parameters after `strconv.Atoi`) and give the status and
  the fields of the `gin.H` body; `page` and `limit` come from the request, so
  `(page - 1) * limit` and `startIndex + limit` wrap to the signed 64-bit range
  (`wrap64`), and a slice expression out of range is the reply `panicked`;
* concurrent calls of `CreatePost` are goroutines that run the function statement
  by statement under an arbitrary scheduler (`World.exec`); `postMutex` is a lock
  that lets a goroutine past `Lock()` only while it is free.
-/

namespace MiniSocial

/-- A clock reading (`time.Time`). -/
abbrev Time := Nat

/-- The struct `models.Comment`. -/
structure Comment where
  ID : Int
  Text : String
  CreatedAt : Time
deriving DecidableEq, Repr

/-- The struct `models.Post`. -/
structure Post where
  ID : Int
  Content : String
  Likes : Int
  Comments : List Comment
  CreatedAt : Time
  UpdatedAt : Time
deriving DecidableEq, Repr

/-- The package-level state of `services`: `posts`, `postIDCounter` and `now`. -/
structure Store where
  posts : List Post
  postIDCounter : Int
  now : Time
deriving DecidableEq, Repr

/-- The five `errors.New(...)` values of the service, one constructor per message. -/
inductive Err where
  /-- The error "post content cannot be empty". -/
  | postContentEmpty
  /-- The error "post content exceeds maximum length of 250 characters". -/
  | postContentTooLong
  /-- The error "post not found". -/
  | postNotFound
  /-- The error "comment cannot be empty". -/
  | commentEmpty
  /-- The error "comment exceeds maximum length of 150 characters". -/
  | commentTooLong
deriving DecidableEq, Repr

/-- The validation errors are the four that are not "post not found". -/
def Err.isValidation : Err → Bool
  | .postNotFound => false
  | _ => true

/-- The store at process start: `posts` is nil, `postIDCounter = 1`, `now` is the
start-up clock reading. -/
def initStore (startup : Time) : Store :=
  { posts := [], postIDCounter := 1, now := startup }

/-- Go's `len(s)` for a string: the number of bytes of its UTF-8 encoding. -/
def goLen (s : String) : Nat := s.utf8ByteSize

/-- Go's `unicode.IsSpace`: the Latin-1 spaces `\t \n \v \f \r`, space, U+0085,
U+00A0, and the other code points with the Unicode White_Space property. -/
def isSpace (r : Char) : Bool :=
  let n := r.toNat
  (decide (0x09 ≤ n) && decide (n ≤ 0x0D)) || n == 0x20 || n == 0x85 || n == 0xA0 ||
  n == 0x1680 || (decide (0x2000 ≤ n) && decide (n ≤ 0x200A)) || n == 0x2028 ||
  n == 0x2029 || n == 0x202F || n == 0x205F || n == 0x3000

/-- Go's `strings.TrimSpace`: the string without its leading and trailing white
space, as defined by `unicode.IsSpace`. -/
def TrimSpace (s : String) : String :=
  String.mk ((s.data.dropWhile isSpace).reverse.dropWhile isSpace).reverse

/-- The loop shared by `UpdatePost`, `LikePost` and `AddComment`:
`for i, post := range posts { if post.ID == id { posts[i] = f(posts[i]); return posts[i], nil } }`.
The first post whose `ID` is `id` is replaced by `f` of it; the result is that
post and the new slice, or `none` when the loop falls through. -/
def rangeModify (id : Int) (f : Post → Post) : List Post → Option (Post × List Post)
  | [] => none
  | post :: rest =>
    if post.ID = id then some (f post, f post :: rest)
    else
      match rangeModify id f rest with
      | none => none
      | some (found, rest1) => some (found, post :: rest1)

/-- The function `CreatePost`. -/
def CreatePost (s : Store) (content : String) : Except Err Post × Store :=
  if content = "" ∨ TrimSpace content = "" then (.error .postContentEmpty, s)
  else if goLen content > 250 then (.error .postContentTooLong, s)
  else
    let post : Post :=
      { ID := s.postIDCounter, Content := content, Likes := 0, Comments := [],
        CreatedAt := s.now, UpdatedAt := s.now }
    (.ok post, { s with postIDCounter := s.postIDCounter + 1, posts := s.posts ++ [post] })

/-- The function `UpdatePost`; `clock` is the value `time.Now()` returns in the call. -/
def UpdatePost (s : Store) (id : Int) (newContent : String) (clock : Time) :
    Except Err Post × Store :=
  if newContent = "" ∨ TrimSpace newContent = "" then (.error .postContentEmpty, s)
  else if goLen newContent > 250 then (.error .postContentTooLong, s)
  else
    match rangeModify id (fun p => { p with Content := newContent, UpdatedAt := clock }) s.posts with
    | some (found, posts1) => (.ok found, { s with posts := posts1 })
    | none => (.error .postNotFound, s)

/-- The function `GetAllPosts`. -/
def GetAllPosts (s : Store) : List Post × Store :=
  (s.posts, s)

/-- The function `LikePost`. -/
def LikePost (s : Store) (id : Int) : Except Err Post × Store :=
  match rangeModify id (fun p => { p with Likes := p.Likes + 1 }) s.posts with
  | some (found, posts1) => (.ok found, { s with posts := posts1 })
  | none => (.error .postNotFound, s)

/-- The read-only loop of `GetPostDetailsByID`: the first post whose `ID` is `id`. -/
def rangeFind (id : Int) : List Post → Option Post
  | [] => none
  | post :: rest => if post.ID = id then some post else rangeFind id rest

/-- The function `GetPostDetailsByID`. -/
def GetPostDetailsByID (s : Store) (id : Int) : Except Err Post × Store :=
  match rangeFind id s.posts with
  | some post => (.ok post, s)
  | none => (.error .postNotFound, s)

/-- The function `AddComment`. Of the `comment` argument only `Text` is read. -/
def AddComment (s : Store) (postID : Int) (comment : Comment) : Except Err Post × Store :=
  if comment.Text = "" ∨ TrimSpace comment.Text = "" then (.error .commentEmpty, s)
  else if goLen comment.Text > 150 then (.error .commentTooLong, s)
  else
    match rangeModify postID
        (fun p => { p with Comments := p.Comments ++
          [{ ID := (p.Comments.length : Int) + 1, Text := comment.Text, CreatedAt := s.now }] })
        s.posts with
    | some (found, posts1) => (.ok found, { s with posts := posts1 })
    | none => (.error .postNotFound, s)

/-- One call of the service, with its arguments. -/
inductive Op where
  | createPost (content : String)
  | updatePost (id : Int) (newContent : String) (clock : Time)
  | getAllPosts
  | likePost (id : Int)
  | getPostDetailsByID (id : Int)
  | addComment (postID : Int) (comment : Comment)
deriving DecidableEq, Repr

/-- What a call hands back: a post, the list of posts, or an error. -/
inductive Outcome where
  | post (p : Post)
  | posts (ps : List Post)
  | failure (e : Err)
deriving DecidableEq, Repr

/-- An `Except Err Post` as an `Outcome`. -/
def Outcome.ofExcept : Except Err Post → Outcome
  | .ok p => .post p
  | .error e => .failure e

/-- Whether the outcome is an error. -/
def Outcome.isFailure : Outcome → Bool
  | .failure _ => true
  | _ => false

/-- Run one call on the store: its outcome and the store after it. -/
def call (s : Store) : Op → Outcome × Store
  | .createPost content => (Outcome.ofExcept (CreatePost s content).1, (CreatePost s content).2)
  | .updatePost id newContent clock =>
    (Outcome.ofExcept (UpdatePost s id newContent clock).1, (UpdatePost s id newContent clock).2)
  | .getAllPosts => (.posts (GetAllPosts s).1, (GetAllPosts s).2)
  | .likePost id => (Outcome.ofExcept (LikePost s id).1, (LikePost s id).2)
  | .getPostDetailsByID id =>
    (Outcome.ofExcept (GetPostDetailsByID s id).1, (GetPostDetailsByID s id).2)
  | .addComment postID comment =>
    (Outcome.ofExcept (AddComment s postID comment).1, (AddComment s postID comment).2)

/-- The store after a sequence of calls, made one after the other. -/
def run (s : Store) : List Op → Store
  | [] => s
  | op :: ops => run (call s op).2 ops

/-- Is the call a `CreatePost` that returns a post: 1 if so, 0 otherwise. -/
def createCount (s : Store) (op : Op) : Nat :=
  match op with
  | .createPost _ => if (call s op).1.isFailure then 0 else 1
  | _ => 0

/-- The number of `CreatePost` calls in the sequence that return a post. -/
def successfulCreates (s : Store) : List Op → Nat
  | [] => 0
  | op :: ops => createCount s op + successfulCreates (call s op).2 ops

/-- Is the call an `AddComment` for `postID` that returns a post: 1 if so, 0 otherwise. -/
def commentCount (postID : Int) (s : Store) (op : Op) : Nat :=
  match op with
  | .addComment target _ => if target = postID ∧ (call s op).1.isFailure = false then 1 else 0
  | _ => 0

/-- The number of `AddComment` calls for `postID` in the sequence that return a post. -/
def successfulComments (postID : Int) (s : Store) : List Op → Nat
  | [] => 0
  | op :: ops => commentCount postID s op + successfulComments postID (call s op).2 ops

/-- The number of comments of the post that a lookup of `id` finds, 0 when there is none. -/
def commentsOf (id : Int) (s : Store) : Nat :=
  ((rangeFind id s.posts).map (fun p => p.Comments.length)).getD 0

/-- The outcomes and final store of `k` successive `LikePost(id)` calls. -/
def likeTimes (id : Int) : Nat → Store → List (Except Err Post) × Store
  | 0, s => ([], s)
  | k + 1, s =>
    ((LikePost s id).1 :: (likeTimes id k (LikePost s id).2).1,
      (likeTimes id k (LikePost s id).2).2)

/-- The ids `1, 2, ..., n`. -/
def idsUpTo (n : Nat) : List Int :=
  (List.range n).map (fun (i : Nat) => (i : Int) + 1)

/-- A text of `n` copies of `c`, Go's `strings.Repeat`. -/
def repeatChar (c : Char) (n : Nat) : String :=
  String.mk (List.replicate n c)

/-- A post with two likes and one comment, for the worked examples. -/
def demoPost : Post :=
  { ID := 1, Content := "first", Likes := 2,
    Comments := [{ ID := 1, Text := "nice", CreatedAt := 3 }], CreatedAt := 3, UpdatedAt := 5 }

/-- A store with two posts, for the worked examples. -/
def demoStore : Store :=
  { posts := [demoPost,
      { ID := 2, Content := "second", Likes := 0, Comments := [], CreatedAt := 3, UpdatedAt := 3 }],
    postIDCounter := 3, now := 3 }

/-- The message of each `errors.New(...)` value, `err.Error()`. -/
def Err.message : Err → String
  | .postContentEmpty => "post content cannot be empty"
  | .postContentTooLong => "post content exceeds maximum length of 250 characters"
  | .postNotFound => "post not found"
  | .commentEmpty => "comment cannot be empty"
  | .commentTooLong => "comment exceeds maximum length of 150 characters"

/-- The result of a Go `int` operation, wrapped to the signed 64-bit range. -/
def wrap64 (x : Int) : Int :=
  (x + 2 ^ 63) % 2 ^ 64 - 2 ^ 63

/-- A value in a `gin.H` response body. -/
inductive JVal where
  | text (s : String)
  | num (n : Int)
  | postList (ps : List Post)
  | onePost (p : Post)
deriving DecidableEq, Repr

/-- What a handler does with the request: `c.JSON(status, gin.H{...})` with the
fields of the body, or a run-time panic of the slice expression. -/
inductive Reply where
  | json (status : Nat) (body : List (String × JVal))
  | panicked
deriving DecidableEq, Repr

/-- The status code of a reply, when there is one. -/
def Reply.status : Reply → Option Nat
  | .json status _ => some status
  | .panicked => none

/-- The field names of the body of a reply. -/
def Reply.fields : Reply → List String
  | .json _ body => body.map Prod.fst
  | .panicked => []

/-- The posts carried in the `posts` field of a reply, when it has one. -/
def Reply.posts : Reply → Option (List Post)
  | .json _ body =>
    match body.lookup "posts" with
    | some (.postList ps) => some ps
    | _ => none
  | .panicked => none

/-- A query parameter read with `c.GetQuery` and `strconv.Atoi`: not in the URL,
not an integer (`err != nil`), or the parsed `int`. -/
inductive QueryInt where
  | absent
  | notInt
  | parsed (n : Int)
deriving DecidableEq, Repr

/-- The pattern used for `page` and `limit`: the default when the parameter is
absent, the parsed value when `err == nil && parsed > 0`, and otherwise the 400
reply (`none`). -/
def positiveOr (dflt : Int) : QueryInt → Option Int
  | .absent => some dflt
  | .notInt => none
  | .parsed n => if n > 0 then some n else none

/-- The slice expression `xs[low:high]`: it panics unless
`0 <= low <= high <= len(xs)`. (Go checks `high` against the capacity; the handler
only reaches the expression with `high <= len(xs)` or `high < low`.) -/
def goSlice (xs : List Post) (low high : Int) : Option (List Post) :=
  if 0 ≤ low ∧ low ≤ high ∧ high ≤ (xs.length : Int) then
    some ((xs.take high.toNat).drop low.toNat)
  else none

/-- The handler `GetAllPostsHandlerWithPagination`; `pg` and `lt` are the `page`
and `limit` query parameters. -/
def GetAllPostsHandlerWithPagination (s : Store) (pg lt : QueryInt) : Reply × Store :=
  match positiveOr 1 pg with
  | none => (.json 400 [("error", .text "Invalid page parameter")], s)
  | some page =>
    match positiveOr 10 lt with
    | none => (.json 400 [("error", .text "Invalid limit parameter")], s)
    | some limit =>
      let posts := (GetAllPosts s).1
      let totalPosts : Int := (posts.length : Int)
      if totalPosts = 0 then
        (.json 200 [("message", .text "No posts found")], (GetAllPosts s).2)
      else
        let startIndex := wrap64 ((page - 1) * limit)
        let endIndex := wrap64 (startIndex + limit)
        if startIndex ≥ totalPosts then
          (.json 200 [("message", .text "No posts found"), ("page", .num page),
                      ("limit", .num limit), ("total", .num totalPosts)], (GetAllPosts s).2)
        else
          let endIndex1 := if endIndex > totalPosts then totalPosts else endIndex
          match goSlice posts startIndex endIndex1 with
          | none => (.panicked, (GetAllPosts s).2)
          | some paginatedPosts =>
            (.json 200 [("posts", .postList paginatedPosts), ("page", .num page),
                        ("limit", .num limit), ("total", .num totalPosts)], (GetAllPosts s).2)

/-- The handler `CreatePostHandler`; `bound` is the outcome of
`c.ShouldBindJSON(&req)`: `none` when it returns an error, `req.Content` otherwise. -/
def CreatePostHandler (s : Store) (bound : Option String) : Reply × Store :=
  match bound with
  | none =>
    (.json 400 [("error", .text "Invalid request. Content should be within 1-250 characters")], s)
  | some content =>
    match CreatePost s content with
    | (.error err, s1) =>
      (.json 404 [("error", .text ("Failed to create post: " ++ err.message))], s1)
    | (.ok post, s1) =>
      (.json 201 [("message", .text "Post created successfully"), ("post", .onePost post)], s1)

/-- A store with `n` posts numbered `1..n`, as `n` valid creates leave it. -/
def storeOfSize (n : Nat) : Store :=
  { posts := (idsUpTo n).map (fun i =>
      { ID := i, Content := "post", Likes := 0, Comments := [], CreatedAt := 0, UpdatedAt := 0 }),
    postIDCounter := (n : Int) + 1, now := 0 }

/-- Where a goroutine that runs `CreatePost(content)` stands, statement by
statement. -/
inductive Pc where
  /-- The call has begun; the content is not validated yet. -/
  | start
  /-- The validation passed; the goroutine is at `postMutex.Lock()`. -/
  | atLock
  /-- The goroutine holds the mutex and builds the post next. -/
  | locked
  /-- Done: `post := models.Post{ID: postIDCounter, ...}`. -/
  | built (post : Post)
  /-- Done: `postIDCounter++`. -/
  | counted (post : Post)
  /-- Done: `posts = append(posts, post)`; the return and the deferred `Unlock` are next. -/
  | appended (post : Post)
  /-- The call has returned. -/
  | returned (result : Except Err Post)

/-- A goroutine running `CreatePost(content)`. -/
structure Goroutine where
  content : String
  pc : Pc

/-- The process while goroutines run `CreatePost`: the package variables, whether
`postMutex` is held, and the goroutines. -/
structure World where
  store : Store
  held : Bool
  routines : List Goroutine

/-- The next statement of `CreatePost` in goroutine `g`: the store and the mutex
after it and the goroutine's new position. `none` when the goroutine cannot move:
it waits at `Lock()` for a held mutex, or it has returned. -/
def Goroutine.step (store : Store) (held : Bool) (g : Goroutine) :
    Option (Store × Bool × Goroutine) :=
  match g.pc with
  | .start =>
    if g.content = "" ∨ TrimSpace g.content = "" then
      some (store, held, { g with pc := .returned (.error .postContentEmpty) })
    else if goLen g.content > 250 then
      some (store, held, { g with pc := .returned (.error .postContentTooLong) })
    else some (store, held, { g with pc := .atLock })
  | .atLock => if held then none else some (store, true, { g with pc := .locked })
  | .locked =>
    some (store, held,
      { g with pc := .built { ID := store.postIDCounter, Content := g.content, Likes := 0,
                              Comments := [], CreatedAt := store.now, UpdatedAt := store.now } })
  | .built post =>
    some ({ store with postIDCounter := store.postIDCounter + 1 }, held,
      { g with pc := .counted post })
  | .counted post =>
    some ({ store with posts := store.posts ++ [post] }, held, { g with pc := .appended post })
  | .appended post => some (store, false, { g with pc := .returned (.ok post) })
  | .returned _ => none

/-- The scheduler lets goroutine number `i` run its next statement; `none` when
there is no such goroutine or it cannot move. -/
def World.stepAt (w : World) (i : Nat) : Option World :=
  match w.routines[i]? with
  | none => none
  | some g =>
    match g.step w.store w.held with
    | none => none
    | some (store, held, g1) =>
      some { store := store, held := held, routines := w.routines.set i g1 }

/-- An interleaving: the scheduler picks goroutines one after the other; a pick of
a goroutine that cannot move changes nothing. -/
def World.exec (w : World) : List Nat → World
  | [] => w
  | i :: rest =>
    match w.stepAt i with
    | none => World.exec w rest
    | some w1 => World.exec w1 rest

/-- The process right after `CreatePost` was launched once for each content, on the
store of process start. -/
def launch (startup : Time) (contents : List String) : World :=
  { store := initStore startup, held := false,
    routines := contents.map (fun c => { content := c, pc := .start }) }

/-- Has the call returned. -/
def Pc.isReturned : Pc → Bool
  | .returned _ => true
  | _ => false

/-- Have all the calls returned. -/
def World.allReturned (w : World) : Bool :=
  w.routines.all (fun g => g.pc.isReturned)

/-- Is the goroutine between `Lock()` and the deferred `Unlock()`: 1 if so. -/
def Pc.inCritical : Pc → Nat
  | .locked => 1
  | .built _ => 1
  | .counted _ => 1
  | .appended _ => 1
  | _ => 0

/-- Has the goroutine done its `postIDCounter++`: 1 if so. -/
def Pc.hasCounted : Pc → Nat
  | .counted _ => 1
  | .appended _ => 1
  | .returned (.ok _) => 1
  | _ => 0

/-- Has the goroutine appended its post: 1 if so. -/
def Pc.hasAppended : Pc → Nat
  | .appended _ => 1
  | .returned (.ok _) => 1
  | _ => 0

/-- The number of statements the goroutine has left, at most. -/
def Pc.remaining : Pc → Nat
  | .start => 6
  | .atLock => 5
  | .locked => 4
  | .built _ => 3
  | .counted _ => 2
  | .appended _ => 1
  | .returned _ => 0

/-- The sum of a count over the goroutines. -/
def tally (f : Pc → Nat) (rs : List Goroutine) : Nat :=
  (rs.map (fun g => f g.pc)).sum

/-- What the position of a goroutine says about the store, given the number `a` of
appends and `c` of increments done so far. -/
def Pc.agrees (a c : Nat) : Pc → Prop
  | .locked => c = a
  | .built post => post.ID = (a : Int) + 1 ∧ c = a
  | .counted post => post.ID = (a : Int) + 1 ∧ c = a + 1
  | .appended _ => c = a
  | _ => True

/-- The invariant of the interleavings: the mutex is held exactly when one
goroutine is in the critical section, the stored ids are `1..a` for the `a` appends
done, the counter is one more than the increments done, the goroutine in the
critical section agrees with the store, and a call that returned an error had
invalid content. -/
def World.Inv (w : World) : Prop :=
  tally Pc.inCritical w.routines = (if w.held then 1 else 0) ∧
  w.store.posts.map Post.ID = idsUpTo (tally Pc.hasAppended w.routines) ∧
  w.store.postIDCounter = (tally Pc.hasCounted w.routines : Int) + 1 ∧
  (∀ g ∈ w.routines,
    g.pc.agrees (tally Pc.hasAppended w.routines) (tally Pc.hasCounted w.routines)) ∧
  (w.held = false → tally Pc.hasCounted w.routines = tally Pc.hasAppended w.routines) ∧
  (∀ g ∈ w.routines, ∀ e, g.pc = .returned (.error e) →
    (TrimSpace g.content = "" ∨ 250 < goLen g.content))

/-! ## Strings: byte length and trimming -/

theorem dropWhile_isSpace_eq_nil_iff (l : List Char) :
    l.dropWhile isSpace = [] ↔ ∀ c ∈ l, isSpace c = true := by
  induction l with
  | nil => simp
  | cons a t ih =>
    by_cases h : isSpace a = true
    · simp [List.dropWhile_cons, h, ih]
    · simp [List.dropWhile_cons, h]

theorem dropWhile_head_not_space (l : List Char) (a : Char) (t : List Char)
    (h : l.dropWhile isSpace = a :: t) : isSpace a = false := by
  induction l with
  | nil => simp at h
  | cons b r ih =>
    by_cases hb : isSpace b = true
    · rw [List.dropWhile_cons, if_pos hb] at h
      exact ih h
    · rw [List.dropWhile_cons, if_neg hb] at h
      injection h with h1 _
      rw [← h1]
      simpa using hb

/-- Trimming leaves nothing exactly when every character is white space. -/
theorem TrimSpace_eq_empty_iff (s : String) :
    TrimSpace s = "" ↔ ∀ c ∈ s.data, isSpace c = true := by
  unfold TrimSpace
  rw [String.ext_iff]
  show ((s.data.dropWhile isSpace).reverse.dropWhile isSpace).reverse = [] ↔ _
  rw [List.reverse_eq_nil_iff, dropWhile_isSpace_eq_nil_iff]
  constructor
  · intro h
    rw [← dropWhile_isSpace_eq_nil_iff]
    by_contra hne
    obtain ⟨a, t, hat⟩ := List.exists_cons_of_ne_nil hne
    have ha := dropWhile_head_not_space _ _ _ hat
    have := h a (by rw [hat]; simp)
    rw [ha] at this
    exact Bool.noConfusion this
  · intro h c hc
    rw [List.mem_reverse] at hc
    exact h c ((List.dropWhile_sublist _).subset hc)

/-- The empty string trims to the empty string, so the first disjunct of the
emptiness test is covered by the second. -/
theorem TrimSpace_empty : TrimSpace "" = "" := by
  rw [TrimSpace_eq_empty_iff]
  intro c hc
  simp at hc

theorem utf8Len_replicate (c : Char) (n : Nat) :
    String.utf8Len (List.replicate n c) = n * c.utf8Size := by
  induction n with
  | zero => simp
  | succ k ih => simp [List.replicate_succ, ih, Nat.succ_mul]

theorem goLen_repeatChar (c : Char) (n : Nat) : goLen (repeatChar c n) = n * c.utf8Size := by
  simp [goLen, repeatChar, utf8Len_replicate]

theorem length_repeatChar (c : Char) (n : Nat) : (repeatChar c n).length = n := by
  simp [repeatChar, String.length]

theorem TrimSpace_repeatChar_ne (c : Char) (n : Nat) (hc : isSpace c = false) (hn : 0 < n) :
    TrimSpace (repeatChar c n) ≠ "" := by
  rw [Ne, TrimSpace_eq_empty_iff]
  intro h
  have := h c (by simp [repeatChar]; omega)
  rw [hc] at this
  exact Bool.noConfusion this

theorem repeatChar_ne_empty (c : Char) (n : Nat) (hn : 0 < n) : repeatChar c n ≠ "" := by
  intro h
  have := congrArg String.length h
  rw [length_repeatChar] at this
  simp at this
  omega

theorem length_le_utf8Len (l : List Char) : l.length ≤ String.utf8Len l := by
  induction l with
  | nil => simp
  | cons a t ih =>
    have := Char.utf8Size_pos a
    simp only [List.length_cons, String.utf8Len_cons]
    omega

/-- A string has at least as many bytes as characters. -/
theorem length_le_goLen (s : String) : s.length ≤ goLen s :=
  length_le_utf8Len s.data

/-! ## The range loops -/

theorem rangeModify_eq_none_iff (id : Int) (f : Post → Post) (ps : List Post) :
    rangeModify id f ps = none ↔ ∀ p ∈ ps, p.ID ≠ id := by
  induction ps with
  | nil => simp [rangeModify]
  | cons a t ih =>
    by_cases h : a.ID = id
    · simp [rangeModify, h]
    · simp only [rangeModify, if_neg h, List.mem_cons, forall_eq_or_imp]
      cases hr : rangeModify id f t with
      | none => simpa [h] using ih.mp hr
      | some r =>
        constructor
        · intro hh
          simp at hh
        · rintro ⟨_, hall⟩
          rw [ih.mpr hall] at hr
          exact Option.noConfusion hr

theorem rangeModify_append_cons (id : Int) (f : Post → Post) (pre : List Post) (p : Post)
    (suf : List Post) (hpre : ∀ q ∈ pre, q.ID ≠ id) (hp : p.ID = id) :
    rangeModify id f (pre ++ p :: suf) = some (f p, pre ++ f p :: suf) := by
  induction pre with
  | nil => simp [rangeModify, hp]
  | cons a t ih =>
    have ha : a.ID ≠ id := hpre a (by simp)
    have ht : ∀ q ∈ t, q.ID ≠ id := fun q hq => hpre q (by simp [hq])
    simp [rangeModify, ha, ih ht]

/-- A list holding a post with the id splits at the first such post. -/
theorem exists_first_with_id (id : Int) (ps : List Post) (h : ∃ p ∈ ps, p.ID = id) :
    ∃ pre p suf, ps = pre ++ p :: suf ∧ (∀ q ∈ pre, q.ID ≠ id) ∧ p.ID = id := by
  induction ps with
  | nil => simp at h
  | cons a t ih =>
    by_cases ha : a.ID = id
    · exact ⟨[], a, t, rfl, by simp, ha⟩
    · obtain ⟨p, hp, hpid⟩ := h
      have hpt : p ∈ t := by
        rcases List.mem_cons.mp hp with h1 | h1
        · exact absurd (h1 ▸ hpid) ha
        · exact h1
      obtain ⟨pre, q, suf, hsplit, hpre, hq⟩ := ih ⟨p, hpt, hpid⟩
      refine ⟨a :: pre, q, suf, by simp [hsplit], ?_, hq⟩
      intro r hr
      rcases List.mem_cons.mp hr with h1 | h1
      · exact h1 ▸ ha
      · exact hpre r h1

theorem rangeFind_eq_none_iff (id : Int) (ps : List Post) :
    rangeFind id ps = none ↔ ∀ p ∈ ps, p.ID ≠ id := by
  induction ps with
  | nil => simp [rangeFind]
  | cons a t ih =>
    by_cases h : a.ID = id
    · simp [rangeFind, h]
    · simp [rangeFind, h, ih]

theorem rangeFind_append_cons (id : Int) (pre : List Post) (p : Post)
    (suf : List Post) (hpre : ∀ q ∈ pre, q.ID ≠ id) (hp : p.ID = id) :
    rangeFind id (pre ++ p :: suf) = some p := by
  induction pre with
  | nil => simp [rangeFind, hp]
  | cons a t ih =>
    have ha : a.ID ≠ id := hpre a (by simp)
    have ht : ∀ q ∈ t, q.ID ≠ id := fun q hq => hpre q (by simp [hq])
    simp [rangeFind, ha, ih ht]

/-! ## CreatePost -/

/-- What `CreatePost` does on each of its three paths, by the tests of the code. -/
theorem CreatePost_cases (s : Store) (content : String) :
    ((content = "" ∨ TrimSpace content = "") ∧
        CreatePost s content = (.error .postContentEmpty, s)) ∨
    (content ≠ "" ∧ TrimSpace content ≠ "" ∧ 250 < goLen content ∧
        CreatePost s content = (.error .postContentTooLong, s)) ∨
    (content ≠ "" ∧ TrimSpace content ≠ "" ∧ goLen content ≤ 250 ∧
        CreatePost s content =
          (.ok { ID := s.postIDCounter, Content := content, Likes := 0, Comments := [],
                 CreatedAt := s.now, UpdatedAt := s.now },
           { s with
             postIDCounter := s.postIDCounter + 1
             posts := s.posts ++ [{ ID := s.postIDCounter, Content := content, Likes := 0,
                                    Comments := [], CreatedAt := s.now, UpdatedAt := s.now }] })) := by
  unfold CreatePost
  by_cases h1 : content = "" ∨ TrimSpace content = ""
  · left
    exact ⟨h1, by rw [if_pos h1]⟩
  · right
    have h1a : content ≠ "" := fun h => h1 (Or.inl h)
    have h1b : TrimSpace content ≠ "" := fun h => h1 (Or.inr h)
    by_cases h2 : goLen content > 250
    · left
      exact ⟨h1a, h1b, h2, by rw [if_neg h1, if_pos h2]⟩
    · right
      exact ⟨h1a, h1b, by omega, by rw [if_neg h1, if_neg h2]⟩

/-- C1, on the code: a content of exactly 250 characters, none of them white space,
is rejected by `CreatePost` when its characters are not single bytes. The content
of 250 times `é` has 250 characters and is 500 bytes long; `CreatePost` answers
"post content exceeds maximum length of 250 characters" and leaves the store as it
was. -/
theorem C1_createPost_rejects_250_two_byte_characters (s : Store) :
    (repeatChar 'é' 250).length = 250 ∧
    TrimSpace (repeatChar 'é' 250) ≠ "" ∧
    goLen (repeatChar 'é' 250) = 500 ∧
    CreatePost s (repeatChar 'é' 250) = (.error .postContentTooLong, s) := by
  have hlen : goLen (repeatChar 'é' 250) = 500 := by
    rw [goLen_repeatChar]
    decide
  have htrim : TrimSpace (repeatChar 'é' 250) ≠ "" :=
    TrimSpace_repeatChar_ne 'é' 250 (by decide) (by decide)
  have hne : repeatChar 'é' 250 ≠ "" := repeatChar_ne_empty 'é' 250 (by decide)
  refine ⟨length_repeatChar _ _, htrim, hlen, ?_⟩
  unfold CreatePost
  rw [if_neg (by simp [hne, htrim]), if_pos (by omega)]

/-- C2: when the content passes the validation of `CreatePost`, the call returns a
post whose id is the counter before the call, whose content is the input as given,
with 0 likes, no comments and equal creation and update times; the new store is
the old list with this post appended, and the counter is one higher. -/
theorem C2_createPost_success (s : Store) (content : String)
    (h1 : content ≠ "") (h2 : TrimSpace content ≠ "") (h3 : goLen content ≤ 250) :
    ∃ post : Post,
      CreatePost s content =
        (.ok post, { posts := s.posts ++ [post], postIDCounter := s.postIDCounter + 1,
                     now := s.now }) ∧
      post.ID = s.postIDCounter ∧ post.Content = content ∧ post.Likes = 0 ∧
      post.Comments = [] ∧ post.CreatedAt = post.UpdatedAt := by
  refine ⟨{ ID := s.postIDCounter, Content := content, Likes := 0, Comments := [],
            CreatedAt := s.now, UpdatedAt := s.now }, ?_, rfl, rfl, rfl, rfl, rfl⟩
  unfold CreatePost
  rw [if_neg (by simp [h1, h2]), if_neg (by omega)]

/-- C2 at the first post of a fresh store, with untrimmed content. -/
theorem C2_createPost_success_witness :
    ∃ post : Post,
      CreatePost (initStore 7) "  hi " =
        (.ok post, { posts := (initStore 7).posts ++ [post],
                     postIDCounter := (initStore 7).postIDCounter + 1,
                     now := (initStore 7).now }) ∧
      post.ID = (initStore 7).postIDCounter ∧ post.Content = "  hi " ∧ post.Likes = 0 ∧
      post.Comments = [] ∧ post.CreatedAt = post.UpdatedAt :=
  C2_createPost_success (initStore 7) "  hi " (by decide) (by decide) (by decide)

/-! ## Every call, one at a time -/

theorem rangeModify_map_ID (id : Int) (f : Post → Post) (hf : ∀ p, (f p).ID = p.ID)
    (ps : List Post) (found : Post) (ps1 : List Post)
    (h : rangeModify id f ps = some (found, ps1)) :
    ps1.map Post.ID = ps.map Post.ID := by
  have hex : ∃ p ∈ ps, p.ID = id := by
    by_contra hno
    have : rangeModify id f ps = none :=
      (rangeModify_eq_none_iff id f ps).mpr (fun p hp hid => hno ⟨p, hp, hid⟩)
    rw [this] at h
    exact Option.noConfusion h
  obtain ⟨pre, p, suf, hsplit, hpre, hp⟩ := exists_first_with_id id ps hex
  rw [hsplit, rangeModify_append_cons id f pre p suf hpre hp] at h
  injection h with h
  injection h with _ h2
  rw [← h2, hsplit]
  simp [hf]

/-- The calls `UpdatePost`, `LikePost` and `AddComment` keep the ids, the length and
the counter, whatever they return. -/
theorem modify_keeps_ids (s : Store) (id : Int) (f : Post → Post) (hf : ∀ p, (f p).ID = p.ID) :
    (match rangeModify id f s.posts with
      | some (found, posts1) => ((Except.ok found : Except Err Post), { s with posts := posts1 })
      | none => (.error .postNotFound, s)).2.posts.map Post.ID = s.posts.map Post.ID ∧
    (match rangeModify id f s.posts with
      | some (found, posts1) => ((Except.ok found : Except Err Post), { s with posts := posts1 })
      | none => (.error .postNotFound, s)).2.postIDCounter = s.postIDCounter := by
  cases h : rangeModify id f s.posts with
  | none => simp
  | some r =>
    obtain ⟨found, posts1⟩ := r
    simp [rangeModify_map_ID id f hf s.posts found posts1 h]

theorem UpdatePost_ids (s : Store) (id : Int) (newContent : String) (clock : Time) :
    (UpdatePost s id newContent clock).2.posts.map Post.ID = s.posts.map Post.ID ∧
    (UpdatePost s id newContent clock).2.postIDCounter = s.postIDCounter := by
  unfold UpdatePost
  split_ifs
  · simp
  · simp
  · exact modify_keeps_ids s id _ (fun _ => rfl)

theorem LikePost_ids (s : Store) (id : Int) :
    (LikePost s id).2.posts.map Post.ID = s.posts.map Post.ID ∧
    (LikePost s id).2.postIDCounter = s.postIDCounter := by
  unfold LikePost
  exact modify_keeps_ids s id _ (fun _ => rfl)

theorem AddComment_ids (s : Store) (postID : Int) (comment : Comment) :
    (AddComment s postID comment).2.posts.map Post.ID = s.posts.map Post.ID ∧
    (AddComment s postID comment).2.postIDCounter = s.postIDCounter := by
  unfold AddComment
  split_ifs
  · simp
  · simp
  · exact modify_keeps_ids s postID _ (fun _ => rfl)

theorem GetPostDetailsByID_store (s : Store) (id : Int) : (GetPostDetailsByID s id).2 = s := by
  unfold GetPostDetailsByID
  cases rangeFind id s.posts <;> rfl

/-- One call appends the old counter to the ids and advances the counter exactly
when it is a `CreatePost` that returns a post. -/
theorem call_ids (s : Store) (op : Op) :
    (call s op).2.posts.map Post.ID =
        s.posts.map Post.ID ++ List.replicate (createCount s op) s.postIDCounter ∧
    (call s op).2.postIDCounter = s.postIDCounter + (createCount s op : Int) := by
  cases op with
  | createPost content =>
    rcases CreatePost_cases s content with ⟨_, h⟩ | ⟨_, _, _, h⟩ | ⟨_, _, _, h⟩ <;>
      simp [call, createCount, h, Outcome.ofExcept, Outcome.isFailure]
  | updatePost id newContent clock =>
    simpa [call, createCount] using UpdatePost_ids s id newContent clock
  | getAllPosts => simp [call, createCount, GetAllPosts]
  | likePost id => simpa [call, createCount] using LikePost_ids s id
  | getPostDetailsByID id => simp [call, createCount, GetPostDetailsByID_store]
  | addComment postID comment =>
    simpa [call, createCount] using AddComment_ids s postID comment

theorem idsUpTo_succ (n : Nat) : idsUpTo (n + 1) = idsUpTo n ++ [(n : Int) + 1] := by
  simp [idsUpTo, List.range_succ]

theorem idsUpTo_nodup (n : Nat) : (idsUpTo n).Nodup := by
  unfold idsUpTo
  refine List.Nodup.map ?_ (List.nodup_range n)
  intro a b hab
  simpa using hab

theorem createCount_le_one (s : Store) (op : Op) : createCount s op = 0 ∨ createCount s op = 1 := by
  unfold createCount
  cases op <;> simp

/-- From a store whose ids are `1..m` and whose counter is `m + 1`, a sequence of
calls with `n` successful creates leads to ids `1..m+n` and counter `m + n + 1`. -/
theorem run_ids (ops : List Op) : ∀ (s : Store) (m : Nat),
    s.posts.map Post.ID = idsUpTo m → s.postIDCounter = (m : Int) + 1 →
    (run s ops).posts.map Post.ID = idsUpTo (m + successfulCreates s ops) ∧
    (run s ops).postIDCounter = ((m + successfulCreates s ops : Nat) : Int) + 1 := by
  induction ops with
  | nil =>
    intro s m h1 h2
    simp [run, successfulCreates, h1, h2]
  | cons op ops ih =>
    intro s m h1 h2
    obtain ⟨hc1, hc2⟩ := call_ids s op
    have hstep : (call s op).2.posts.map Post.ID = idsUpTo (m + createCount s op) ∧
        (call s op).2.postIDCounter = ((m + createCount s op : Nat) : Int) + 1 := by
      rcases createCount_le_one s op with h0 | h0
      · rw [hc1, hc2, h0, h1, h2]
        simp
      · rw [hc1, hc2, h0, h1, h2]
        simp [idsUpTo_succ]
    have := ih (call s op).2 (m + createCount s op) hstep.1 hstep.2
    simpa [run, successfulCreates, Nat.add_assoc] using this

/-! ## The claims on reachable stores and on failing calls -/

/-- C3: in the store reached from the empty initial store (counter 1) by any finite
sequence of calls, failing ones included, the stored posts carry the ids
`1, 2, ..., n` in collection order, the ids are pairwise distinct, and the counter
is `n + 1`, where `n` is the number of `CreatePost` calls that returned a post. -/
theorem C3_reachable_ids_consecutive (startup : Time) (ops : List Op) :
    (run (initStore startup) ops).posts.map Post.ID =
        idsUpTo (successfulCreates (initStore startup) ops) ∧
    ((run (initStore startup) ops).posts.map Post.ID).Nodup ∧
    (run (initStore startup) ops).posts.length = successfulCreates (initStore startup) ops ∧
    (run (initStore startup) ops).postIDCounter =
        (successfulCreates (initStore startup) ops : Int) + 1 := by
  have h := run_ids ops (initStore startup) 0 (by simp [initStore, idsUpTo]) (by simp [initStore])
  simp only [Nat.zero_add] at h
  refine ⟨h.1, ?_, ?_, h.2⟩
  · rw [h.1]
    exact idsUpTo_nodup _
  · have := congrArg List.length h.1
    simpa [idsUpTo] using this

/-- C4: a call of `CreatePost`, `UpdatePost`, `LikePost`, `AddComment` or
`GetPostDetailsByID` that returns an error leaves the whole store, every field of
every post and the id counter, as it was before the call. -/
theorem C4_error_leaves_store (s : Store) (op : Op) (e : Err)
    (h : (call s op).1 = Outcome.failure e) : (call s op).2 = s := by
  cases op with
  | createPost content =>
    rcases CreatePost_cases s content with ⟨_, hc⟩ | ⟨_, _, _, hc⟩ | ⟨_, _, _, hc⟩
    · simp [call, hc]
    · simp [call, hc]
    · simp [call, hc, Outcome.ofExcept] at h
  | updatePost id newContent clock =>
    simp only [call] at h ⊢
    unfold UpdatePost at h ⊢
    split_ifs at h ⊢
    · rfl
    · rfl
    · cases hr : rangeModify id (fun p => { p with Content := newContent, UpdatedAt := clock })
        s.posts with
      | none => simp
      | some r => simp [hr, Outcome.ofExcept] at h
  | getAllPosts => simp [call, GetAllPosts]
  | likePost id =>
    simp only [call] at h ⊢
    unfold LikePost at h ⊢
    cases hr : rangeModify id (fun p => { p with Likes := p.Likes + 1 }) s.posts with
    | none => simp
    | some r => simp [hr, Outcome.ofExcept] at h
  | getPostDetailsByID id => simp [call, GetPostDetailsByID_store]
  | addComment postID comment =>
    simp only [call] at h ⊢
    unfold AddComment at h ⊢
    split_ifs at h ⊢
    · rfl
    · rfl
    · cases hr : rangeModify postID (fun p => { p with Comments := p.Comments ++
          [{ ID := (p.Comments.length : Int) + 1, Text := comment.Text, CreatedAt := s.now }] })
        s.posts with
      | none => simp
      | some r => simp [hr, Outcome.ofExcept] at h

/-- C4 at an update of an existing post with blank content. -/
theorem C4_error_leaves_store_witness :
    (call demoStore (.updatePost 1 "   " 9)).1 = Outcome.failure .postContentEmpty ∧
    (call demoStore (.updatePost 1 "   " 9)).2 = demoStore :=
  ⟨by decide, C4_error_leaves_store demoStore (.updatePost 1 "   " 9) .postContentEmpty (by decide)⟩

/-! ## UpdatePost -/

/-- The loop either falls through, when no post has the id, or replaces the first
post that has it and leaves the posts before and after it alone. -/
theorem rangeModify_cases (id : Int) (f : Post → Post) (ps : List Post) :
    ((∀ q ∈ ps, q.ID ≠ id) ∧ rangeModify id f ps = none) ∨
    (∃ pre p suf, ps = pre ++ p :: suf ∧ (∀ q ∈ pre, q.ID ≠ id) ∧ p.ID = id ∧
      rangeModify id f ps = some (f p, pre ++ f p :: suf)) := by
  by_cases h : ∃ p ∈ ps, p.ID = id
  · right
    obtain ⟨pre, p, suf, hsplit, hpre, hp⟩ := exists_first_with_id id ps h
    refine ⟨pre, p, suf, hsplit, hpre, hp, ?_⟩
    rw [hsplit]
    exact rangeModify_append_cons id f pre p suf hpre hp
  · left
    have hall : ∀ q ∈ ps, q.ID ≠ id := fun q hq hid => h ⟨q, hq, hid⟩
    exact ⟨hall, (rangeModify_eq_none_iff id f ps).mpr hall⟩

/-- What `UpdatePost` does on each of its four paths. -/
theorem UpdatePost_cases (s : Store) (id : Int) (newContent : String) (clock : Time) :
    ((newContent = "" ∨ TrimSpace newContent = "") ∧
        UpdatePost s id newContent clock = (.error .postContentEmpty, s)) ∨
    (TrimSpace newContent ≠ "" ∧ 250 < goLen newContent ∧
        UpdatePost s id newContent clock = (.error .postContentTooLong, s)) ∨
    (TrimSpace newContent ≠ "" ∧ goLen newContent ≤ 250 ∧ (∀ q ∈ s.posts, q.ID ≠ id) ∧
        UpdatePost s id newContent clock = (.error .postNotFound, s)) ∨
    (TrimSpace newContent ≠ "" ∧ goLen newContent ≤ 250 ∧
      ∃ pre p suf, s.posts = pre ++ p :: suf ∧ (∀ q ∈ pre, q.ID ≠ id) ∧ p.ID = id ∧
        UpdatePost s id newContent clock =
          (.ok { p with Content := newContent, UpdatedAt := clock },
           { s with posts := pre ++ { p with Content := newContent, UpdatedAt := clock } :: suf })) := by
  unfold UpdatePost
  by_cases h1 : newContent = "" ∨ TrimSpace newContent = ""
  · left
    exact ⟨h1, by rw [if_pos h1]⟩
  · right
    have h1b : TrimSpace newContent ≠ "" := fun h => h1 (Or.inr h)
    by_cases h2 : goLen newContent > 250
    · left
      exact ⟨h1b, h2, by rw [if_neg h1, if_pos h2]⟩
    · right
      rw [if_neg h1, if_neg h2]
      rcases rangeModify_cases id
          (fun p => { p with Content := newContent, UpdatedAt := clock }) s.posts with
        ⟨hall, hr⟩ | ⟨pre, p, suf, hsplit, hpre, hp, hr⟩
      · left
        exact ⟨h1b, by omega, hall, by rw [hr]⟩
      · right
        exact ⟨h1b, by omega, pre, p, suf, hsplit, hpre, hp, by rw [hr]⟩

/-- The order of the tests in `UpdatePost`, with the length counted as the code
counts it, in bytes: `UpdatePost` gives the same validation error as `CreatePost` on
the same contents, before it looks the post up. A content that is empty after
trimming or longer than 250 characters gets a validation error whether or not a
post has the id; the answer is "post not found" exactly when the content is not
empty after trimming, is at most 250 bytes long and no stored post has the id; the
call returns a post exactly when the content is not empty after trimming, is at
most 250 bytes long and some stored post has the id. -/
theorem UpdatePost_validates_before_lookup (s : Store) (id : Int) (newContent : String)
    (clock : Time) :
    (∀ e : Err, e.isValidation = true →
      ((UpdatePost s id newContent clock).1 = .error e ↔ (CreatePost s newContent).1 = .error e)) ∧
    ((TrimSpace newContent = "" ∨ 250 < newContent.length) →
      ∃ e : Err, e.isValidation = true ∧ UpdatePost s id newContent clock = (.error e, s)) ∧
    ((∃ p, (CreatePost s newContent).1 = .ok p) ↔
      (TrimSpace newContent ≠ "" ∧ goLen newContent ≤ 250)) ∧
    ((UpdatePost s id newContent clock).1 = .error .postNotFound ↔
      ((TrimSpace newContent ≠ "" ∧ goLen newContent ≤ 250) ∧ ∀ q ∈ s.posts, q.ID ≠ id)) ∧
    ((∃ p, (UpdatePost s id newContent clock).1 = .ok p) ↔
      ((TrimSpace newContent ≠ "" ∧ goLen newContent ≤ 250) ∧ ∃ q ∈ s.posts, q.ID = id)) := by
  have hlen := length_le_goLen newContent
  have hC := CreatePost_cases s newContent
  have hU := UpdatePost_cases s id newContent clock
  have hempty : newContent = "" → TrimSpace newContent = "" := fun h => h ▸ TrimSpace_empty
  refine ⟨?_, ?_, ?_, ?_, ?_⟩
  · intro e he
    rcases hU with ⟨hu1, hu⟩ | ⟨hu1, hu2, hu⟩ | ⟨hu1, hu2, _, hu⟩ | ⟨hu1, hu2, _, _, _, _, _, _, hu⟩ <;>
    rcases hC with ⟨hc1, hc⟩ | ⟨_, hc1, hc2, hc⟩ | ⟨_, hc1, hc2, hc⟩ <;>
    rw [hu, hc] <;>
    first
      | rfl
      | (exfalso; rcases hc1 with h | h
         · exact hu1 (hempty h)
         · exact hu1 h)
      | (exfalso; rcases hu1 with h | h
         · exact hc1 (hempty h)
         · exact hc1 h)
      | (exfalso; omega)
      | (cases e <;> simp [Err.isValidation] at he ⊢)
  · intro hbad
    rcases hU with ⟨_, hu⟩ | ⟨_, _, hu⟩ | ⟨hu1, hu2, _, _⟩ | ⟨hu1, hu2, _⟩
    · exact ⟨.postContentEmpty, rfl, hu⟩
    · exact ⟨.postContentTooLong, rfl, hu⟩
    · rcases hbad with h | h
      · exact absurd h hu1
      · omega
    · rcases hbad with h | h
      · exact absurd h hu1
      · omega
  · rcases hC with ⟨hc1, hc⟩ | ⟨_, hc1, hc2, hc⟩ | ⟨_, hc1, hc2, hc⟩
    · rw [hc]
      constructor
      · rintro ⟨p, hp⟩
        exact Except.noConfusion hp
      · rintro ⟨h, _⟩
        rcases hc1 with h1 | h1
        · exact absurd (hempty h1) h
        · exact absurd h1 h
    · rw [hc]
      constructor
      · rintro ⟨p, hp⟩
        exact Except.noConfusion hp
      · rintro ⟨_, h⟩
        omega
    · rw [hc]
      exact ⟨fun _ => ⟨hc1, hc2⟩, fun _ => ⟨_, rfl⟩⟩
  · rcases hU with ⟨hu1, hu⟩ | ⟨hu1, hu2, hu⟩ | ⟨hu1, hu2, hall, hu⟩ |
      ⟨hu1, hu2, pre, p, suf, hsplit, _, hp, hu⟩
    · rw [hu]
      constructor
      · intro h
        simp at h
      · rintro ⟨⟨h, _⟩, _⟩
        rcases hu1 with h1 | h1
        · exact absurd (hempty h1) h
        · exact absurd h1 h
    · rw [hu]
      constructor
      · intro h
        simp at h
      · rintro ⟨⟨_, h⟩, _⟩
        omega
    · rw [hu]
      exact ⟨fun _ => ⟨⟨hu1, hu2⟩, hall⟩, fun _ => rfl⟩
    · rw [hu]
      constructor
      · intro h
        simp at h
      · rintro ⟨_, hall⟩
        exact absurd hp (hall p (by rw [hsplit]; simp))
  · rcases hU with ⟨hu1, hu⟩ | ⟨hu1, hu2, hu⟩ | ⟨hu1, hu2, hall, hu⟩ |
      ⟨hu1, hu2, pre, p, suf, hsplit, _, hp, hu⟩
    · rw [hu]
      constructor
      · rintro ⟨q, hq⟩
        exact Except.noConfusion hq
      · rintro ⟨⟨h, _⟩, _⟩
        rcases hu1 with h1 | h1
        · exact absurd (hempty h1) h
        · exact absurd h1 h
    · rw [hu]
      constructor
      · rintro ⟨q, hq⟩
        exact Except.noConfusion hq
      · rintro ⟨⟨_, h⟩, _⟩
        omega
    · rw [hu]
      constructor
      · rintro ⟨q, hq⟩
        exact Except.noConfusion hq
      · rintro ⟨_, q, hq, hid⟩
        exact absurd hid (hall q hq)
    · rw [hu]
      exact ⟨fun _ => ⟨⟨hu1, hu2⟩, p, by rw [hsplit]; simp, hp⟩, fun _ => ⟨_, rfl⟩⟩

/-- Blank content for an id no post has gets the validation error, not "post not
found". -/
theorem UpdatePost_blank_for_missing_id :
    (∀ q ∈ demoStore.posts, q.ID ≠ 99) ∧
    ∃ e : Err, e.isValidation = true ∧ UpdatePost demoStore 99 "  " 9 = (.error e, demoStore) :=
  ⟨by decide, (UpdatePost_validates_before_lookup demoStore 99 "  " 9).2.1 (Or.inl (by decide))⟩

/-- C5, on the code: a new content of exactly 250 characters, none of them white
space, is not empty after trimming and not longer than 250 characters, yet
`UpdatePost` does not accept it when its characters are not single bytes. For the
content of 250 times `é` (500 bytes) `UpdatePost` answers "post content exceeds
maximum length of 250 characters" on every store and for every id: for id 1 of the
example store, which exists, it does not return the updated post, and for id 99,
which no post has, it does not answer "post not found". The store is left as it
was. -/
theorem C5_updatePost_rejects_250_two_byte_characters (s : Store) (id : Int) (clock : Time) :
    (repeatChar 'é' 250).length = 250 ∧
    TrimSpace (repeatChar 'é' 250) ≠ "" ∧
    goLen (repeatChar 'é' 250) = 500 ∧
    UpdatePost s id (repeatChar 'é' 250) clock = (.error .postContentTooLong, s) ∧
    ((∃ q ∈ demoStore.posts, q.ID = 1) ∧
      UpdatePost demoStore 1 (repeatChar 'é' 250) clock =
        (.error .postContentTooLong, demoStore)) ∧
    ((∀ q ∈ demoStore.posts, q.ID ≠ 99) ∧
      UpdatePost demoStore 99 (repeatChar 'é' 250) clock =
        (.error .postContentTooLong, demoStore)) := by
  have hlen : goLen (repeatChar 'é' 250) = 500 := by
    rw [goLen_repeatChar]
    decide
  have htrim : TrimSpace (repeatChar 'é' 250) ≠ "" :=
    TrimSpace_repeatChar_ne 'é' 250 (by decide) (by decide)
  have hne : repeatChar 'é' 250 ≠ "" := repeatChar_ne_empty 'é' 250 (by decide)
  have hall : ∀ (t : Store) (j : Int),
      UpdatePost t j (repeatChar 'é' 250) clock = (.error .postContentTooLong, t) := by
    intro t j
    unfold UpdatePost
    rw [if_neg (by simp [hne, htrim]), if_pos (by omega)]
  exact ⟨length_repeatChar _ _, htrim, hlen, hall s id, ⟨by decide, hall demoStore 1⟩,
    ⟨by decide, hall demoStore 99⟩⟩

/-- C6: for a valid new content and an id that some stored post has, `UpdatePost`
returns the first post with that id with its content set to the new content as
given and its update time set to the clock reading; its id, likes, comments and
creation time are as before, the posts before and after it are as before, in the
same order, and the counter is as before. -/
theorem C6_updatePost_success_frame (s : Store) (id : Int) (newContent : String) (clock : Time)
    (hvalid : TrimSpace newContent ≠ "" ∧ goLen newContent ≤ 250)
    (hex : ∃ q ∈ s.posts, q.ID = id) :
    ∃ pre p suf, s.posts = pre ++ p :: suf ∧ (∀ q ∈ pre, q.ID ≠ id) ∧ p.ID = id ∧
      UpdatePost s id newContent clock =
        (.ok { ID := p.ID, Content := newContent, Likes := p.Likes, Comments := p.Comments,
               CreatedAt := p.CreatedAt, UpdatedAt := clock },
         { posts := pre ++ { ID := p.ID, Content := newContent, Likes := p.Likes,
                             Comments := p.Comments, CreatedAt := p.CreatedAt,
                             UpdatedAt := clock } :: suf,
           postIDCounter := s.postIDCounter, now := s.now }) := by
  obtain ⟨hv1, hv2⟩ := hvalid
  rcases UpdatePost_cases s id newContent clock with ⟨hu1, _⟩ | ⟨_, hu2, _⟩ | ⟨_, _, hall, _⟩ |
      ⟨_, _, pre, p, suf, hsplit, hpre, hp, hu⟩
  · rcases hu1 with h | h
    · exact absurd (h ▸ TrimSpace_empty) hv1
    · exact absurd h hv1
  · omega
  · obtain ⟨q, hq, hid⟩ := hex
    exact absurd hid (hall q hq)
  · exact ⟨pre, p, suf, hsplit, hpre, hp, hu⟩

/-- C6 at the second post of the example store. -/
theorem C6_updatePost_success_frame_witness :
    ∃ pre p suf, demoStore.posts = pre ++ p :: suf ∧ (∀ q ∈ pre, q.ID ≠ 2) ∧ p.ID = 2 ∧
      UpdatePost demoStore 2 " new text " 9 =
        (.ok { ID := p.ID, Content := " new text ", Likes := p.Likes, Comments := p.Comments,
               CreatedAt := p.CreatedAt, UpdatedAt := 9 },
         { posts := pre ++ { ID := p.ID, Content := " new text ", Likes := p.Likes,
                             Comments := p.Comments, CreatedAt := p.CreatedAt,
                             UpdatedAt := 9 } :: suf,
           postIDCounter := demoStore.postIDCounter, now := demoStore.now }) :=
  C6_updatePost_success_frame demoStore 2 " new text " 9 (by decide) (by decide)

/-! ## LikePost -/

/-- What `LikePost` does on each of its two paths. -/
theorem LikePost_cases (s : Store) (id : Int) :
    ((∀ q ∈ s.posts, q.ID ≠ id) ∧ LikePost s id = (.error .postNotFound, s)) ∨
    (∃ pre p suf, s.posts = pre ++ p :: suf ∧ (∀ q ∈ pre, q.ID ≠ id) ∧ p.ID = id ∧
      LikePost s id =
        (.ok { p with Likes := p.Likes + 1 },
         { s with posts := pre ++ { p with Likes := p.Likes + 1 } :: suf })) := by
  unfold LikePost
  rcases rangeModify_cases id (fun p => { p with Likes := p.Likes + 1 }) s.posts with
    ⟨hall, hr⟩ | ⟨pre, p, suf, hsplit, hpre, hp, hr⟩
  · left
    exact ⟨hall, by rw [hr]⟩
  · right
    exact ⟨pre, p, suf, hsplit, hpre, hp, by rw [hr]⟩

/-- On a store split at the first post with the id, one `LikePost` adds one like to it. -/
theorem LikePost_split (now : Time) (counter : Int) (id : Int) (pre : List Post) (p : Post)
    (suf : List Post) (hpre : ∀ q ∈ pre, q.ID ≠ id) (hp : p.ID = id) :
    LikePost { posts := pre ++ p :: suf, postIDCounter := counter, now := now } id =
      (.ok { p with Likes := p.Likes + 1 },
       { posts := pre ++ { p with Likes := p.Likes + 1 } :: suf, postIDCounter := counter,
         now := now }) := by
  unfold LikePost
  simp only []
  rw [rangeModify_append_cons id _ pre p suf hpre hp]

/-- On a store split at the first post with the id, `k` calls of `LikePost` return
the post with 1, 2, ..., `k` more likes and leave it with `k` more. -/
theorem likeTimes_split (id : Int) (k : Nat) : ∀ (now : Time) (counter : Int)
    (pre : List Post) (p : Post) (suf : List Post), (∀ q ∈ pre, q.ID ≠ id) → p.ID = id →
    likeTimes id k { posts := pre ++ p :: suf, postIDCounter := counter, now := now } =
      ((List.range k).map (fun (j : Nat) => Except.ok { p with Likes := p.Likes + ((j : Int) + 1) }),
       { posts := pre ++ { p with Likes := p.Likes + (k : Int) } :: suf, postIDCounter := counter,
         now := now }) := by
  induction k with
  | zero =>
    intro now counter pre p suf _ _
    simp [likeTimes]
  | succ k ih =>
    intro now counter pre p suf hpre hp
    have h1 := LikePost_split now counter id pre p suf hpre hp
    have h2 := ih now counter pre { p with Likes := p.Likes + 1 } suf hpre hp
    simp only [likeTimes, h1, h2]
    have e1 : p.Likes + 1 + (k : Int) = p.Likes + ((k : Int) + 1) := by omega
    have e2 : ∀ j : Nat, p.Likes + 1 + ((j : Int) + 1) = p.Likes + ((j : Int) + 1 + 1) := by
      intro j
      omega
    simp [List.range_succ_eq_map, Function.comp_def, e1, e2]

/-- C7: on a store that holds a post with the id, `K` successive calls of
`LikePost(id)` all return a post: the call number `j + 1` returns the first post
with that id with `j + 1` more likes than at the start, one more than before that
call; afterwards that post has its initial likes plus `K`, and the rest of the store
(its other fields, the other posts, their order, the counter) is as it was.
`LikePost` answers "post not found" exactly when no stored post has the id. -/
theorem C7_likePost_k_times (s : Store) (id : Int) (K : Nat) :
    ((∃ q ∈ s.posts, q.ID = id) →
      ∃ pre p suf, s.posts = pre ++ p :: suf ∧ (∀ q ∈ pre, q.ID ≠ id) ∧ p.ID = id ∧
        likeTimes id K s =
          ((List.range K).map (fun (j : Nat) =>
              Except.ok { ID := p.ID, Content := p.Content, Likes := p.Likes + ((j : Int) + 1),
                          Comments := p.Comments, CreatedAt := p.CreatedAt,
                          UpdatedAt := p.UpdatedAt }),
           { posts := pre ++ { ID := p.ID, Content := p.Content, Likes := p.Likes + (K : Int),
                               Comments := p.Comments, CreatedAt := p.CreatedAt,
                               UpdatedAt := p.UpdatedAt } :: suf,
             postIDCounter := s.postIDCounter, now := s.now })) ∧
    ((LikePost s id).1 = .error .postNotFound ↔ ∀ q ∈ s.posts, q.ID ≠ id) ∧
    (∀ e, (LikePost s id).1 = .error e → e = .postNotFound) := by
  refine ⟨?_, ?_, ?_⟩
  · intro hex
    obtain ⟨pre, p, suf, hsplit, hpre, hp⟩ := exists_first_with_id id s.posts hex
    refine ⟨pre, p, suf, hsplit, hpre, hp, ?_⟩
    have h := likeTimes_split id K s.now s.postIDCounter pre p suf hpre hp
    rw [← hsplit] at h
    exact h
  · rcases LikePost_cases s id with ⟨hall, h⟩ | ⟨pre, p, suf, hsplit, _, hp, h⟩
    · rw [h]
      exact ⟨fun _ => hall, fun _ => rfl⟩
    · rw [h]
      constructor
      · intro hh
        simp at hh
      · intro hall
        exact absurd hp (hall p (by rw [hsplit]; simp))
  · intro e he
    rcases LikePost_cases s id with ⟨_, h⟩ | ⟨_, _, _, _, _, _, h⟩
    · rw [h] at he
      injection he with he
      exact he.symm
    · rw [h] at he
      simp at he

/-- C7 at three likes of the first post of the example store: from 2 likes to 5. -/
theorem C7_likePost_k_times_witness :
    ∃ pre p suf, demoStore.posts = pre ++ p :: suf ∧ (∀ q ∈ pre, q.ID ≠ 1) ∧ p.ID = 1 ∧
      likeTimes 1 3 demoStore =
        ((List.range 3).map (fun (j : Nat) =>
            Except.ok { ID := p.ID, Content := p.Content, Likes := p.Likes + ((j : Int) + 1),
                        Comments := p.Comments, CreatedAt := p.CreatedAt,
                        UpdatedAt := p.UpdatedAt }),
         { posts := pre ++ { ID := p.ID, Content := p.Content, Likes := p.Likes + (3 : Nat),
                             Comments := p.Comments, CreatedAt := p.CreatedAt,
                             UpdatedAt := p.UpdatedAt } :: suf,
           postIDCounter := demoStore.postIDCounter, now := demoStore.now }) :=
  (C7_likePost_k_times demoStore 1 3).1 (by decide)

/-! ## AddComment -/

/-- What `AddComment` does on each of its four paths. -/
theorem AddComment_cases (s : Store) (postID : Int) (comment : Comment) :
    ((comment.Text = "" ∨ TrimSpace comment.Text = "") ∧
        AddComment s postID comment = (.error .commentEmpty, s)) ∨
    (TrimSpace comment.Text ≠ "" ∧ 150 < goLen comment.Text ∧
        AddComment s postID comment = (.error .commentTooLong, s)) ∨
    (TrimSpace comment.Text ≠ "" ∧ goLen comment.Text ≤ 150 ∧ (∀ q ∈ s.posts, q.ID ≠ postID) ∧
        AddComment s postID comment = (.error .postNotFound, s)) ∨
    (TrimSpace comment.Text ≠ "" ∧ goLen comment.Text ≤ 150 ∧
      ∃ pre p suf, s.posts = pre ++ p :: suf ∧ (∀ q ∈ pre, q.ID ≠ postID) ∧ p.ID = postID ∧
        AddComment s postID comment =
          (.ok { p with Comments := p.Comments ++
                  [{ ID := (p.Comments.length : Int) + 1, Text := comment.Text,
                     CreatedAt := s.now }] },
           { s with posts := pre ++ { p with Comments := p.Comments ++
                  [{ ID := (p.Comments.length : Int) + 1, Text := comment.Text,
                     CreatedAt := s.now }] } :: suf })) := by
  unfold AddComment
  by_cases h1 : comment.Text = "" ∨ TrimSpace comment.Text = ""
  · left
    exact ⟨h1, by rw [if_pos h1]⟩
  · right
    have h1b : TrimSpace comment.Text ≠ "" := fun h => h1 (Or.inr h)
    by_cases h2 : goLen comment.Text > 150
    · left
      exact ⟨h1b, h2, by rw [if_neg h1, if_pos h2]⟩
    · right
      rw [if_neg h1, if_neg h2]
      rcases rangeModify_cases postID
          (fun p => { p with Comments := p.Comments ++
            [{ ID := (p.Comments.length : Int) + 1, Text := comment.Text, CreatedAt := s.now }] })
          s.posts with
        ⟨hall, hr⟩ | ⟨pre, p, suf, hsplit, hpre, hp, hr⟩
      · left
        exact ⟨h1b, by omega, hall, by rw [hr]⟩
      · right
        exact ⟨h1b, by omega, pre, p, suf, hsplit, hpre, hp, by rw [hr]⟩

/-- C8: for a text that passes the validation and a post id that some stored post
has, `AddComment` appends one comment to the end of the comments of the first post
with that id: its id is the former number of comments plus 1 and its text is the
input text as given. The earlier comments, the other fields of the post, the posts
before and after it and the counter are as before, and the returned post is the
updated post. The `ID` and `CreatedAt` of the comment argument play no part. -/
theorem C8_addComment_success_frame (s : Store) (postID : Int) (comment : Comment)
    (hvalid : TrimSpace comment.Text ≠ "" ∧ goLen comment.Text ≤ 150)
    (hex : ∃ q ∈ s.posts, q.ID = postID) :
    (∃ pre p suf, s.posts = pre ++ p :: suf ∧ (∀ q ∈ pre, q.ID ≠ postID) ∧ p.ID = postID ∧
      AddComment s postID comment =
        (.ok { ID := p.ID, Content := p.Content, Likes := p.Likes,
               Comments := p.Comments ++
                 [{ ID := (p.Comments.length : Int) + 1, Text := comment.Text,
                    CreatedAt := s.now }],
               CreatedAt := p.CreatedAt, UpdatedAt := p.UpdatedAt },
         { posts := pre ++ { ID := p.ID, Content := p.Content, Likes := p.Likes,
                             Comments := p.Comments ++
                               [{ ID := (p.Comments.length : Int) + 1, Text := comment.Text,
                                  CreatedAt := s.now }],
                             CreatedAt := p.CreatedAt, UpdatedAt := p.UpdatedAt } :: suf,
           postIDCounter := s.postIDCounter, now := s.now })) ∧
    (∀ (i : Int) (t : Time),
      AddComment s postID { ID := i, Text := comment.Text, CreatedAt := t } =
        AddComment s postID comment) := by
  obtain ⟨hv1, hv2⟩ := hvalid
  refine ⟨?_, fun _ _ => rfl⟩
  rcases AddComment_cases s postID comment with ⟨hu1, _⟩ | ⟨_, hu2, _⟩ | ⟨_, _, hall, _⟩ |
      ⟨_, _, pre, p, suf, hsplit, hpre, hp, hu⟩
  · rcases hu1 with h | h
    · exact absurd (h ▸ TrimSpace_empty) hv1
    · exact absurd h hv1
  · omega
  · obtain ⟨q, hq, hid⟩ := hex
    exact absurd hid (hall q hq)
  · exact ⟨pre, p, suf, hsplit, hpre, hp, hu⟩

/-- C8 at a second comment on the first post of the example store; the caller passes
comment id 40 and time 77, the stored comment has id 2 and the time of the store. -/
theorem C8_addComment_success_frame_witness :
    AddComment demoStore 1 { ID := 40, Text := "again", CreatedAt := 77 } =
      (.ok { demoPost with Comments := demoPost.Comments ++
               [{ ID := 2, Text := "again", CreatedAt := 3 }] },
       { demoStore with posts :=
           { demoPost with Comments := demoPost.Comments ++
               [{ ID := 2, Text := "again", CreatedAt := 3 }] } :: demoStore.posts.tail }) ∧
    (∃ pre p suf, demoStore.posts = pre ++ p :: suf ∧ (∀ q ∈ pre, q.ID ≠ 1) ∧ p.ID = 1 ∧
      AddComment demoStore 1 { ID := 40, Text := "again", CreatedAt := 77 } =
        (.ok { ID := p.ID, Content := p.Content, Likes := p.Likes,
               Comments := p.Comments ++
                 [{ ID := (p.Comments.length : Int) + 1, Text := "again",
                    CreatedAt := demoStore.now }],
               CreatedAt := p.CreatedAt, UpdatedAt := p.UpdatedAt },
         { posts := pre ++ { ID := p.ID, Content := p.Content, Likes := p.Likes,
                             Comments := p.Comments ++
                               [{ ID := (p.Comments.length : Int) + 1, Text := "again",
                                  CreatedAt := demoStore.now }],
                             CreatedAt := p.CreatedAt, UpdatedAt := p.UpdatedAt } :: suf,
           postIDCounter := demoStore.postIDCounter, now := demoStore.now })) :=
  ⟨by rfl,
   (C8_addComment_success_frame demoStore 1 { ID := 40, Text := "again", CreatedAt := 77 }
      (by decide) (by decide)).1⟩

/-- C10, on the code: a comment text of exactly 150 characters, none of them white
space, is rejected by `AddComment` when its characters are not single bytes. The
text of 150 times `é` has 150 characters and is 300 bytes long; `AddComment` answers
"comment exceeds maximum length of 150 characters", on every store and for every
post id, and leaves the store as it was. -/
theorem C10_addComment_rejects_150_two_byte_characters (s : Store) (postID : Int) (i : Int)
    (t : Time) :
    (repeatChar 'é' 150).length = 150 ∧
    TrimSpace (repeatChar 'é' 150) ≠ "" ∧
    goLen (repeatChar 'é' 150) = 300 ∧
    AddComment s postID { ID := i, Text := repeatChar 'é' 150, CreatedAt := t } =
      (.error .commentTooLong, s) := by
  have hlen : goLen (repeatChar 'é' 150) = 300 := by
    rw [goLen_repeatChar]
    decide
  have htrim : TrimSpace (repeatChar 'é' 150) ≠ "" :=
    TrimSpace_repeatChar_ne 'é' 150 (by decide) (by decide)
  have hne : repeatChar 'é' 150 ≠ "" := repeatChar_ne_empty 'é' 150 (by decide)
  refine ⟨length_repeatChar _ _, htrim, hlen, ?_⟩
  unfold AddComment
  rw [if_neg (by simp [hne, htrim]), if_pos (by simp only []; omega)]

/-! ## Comment numbering on reachable stores -/

/-- What one call does to the list of posts: nothing, or it appends a post without
comments, or it replaces the first post with some id by a post with the same id
whose comments are the old ones, or the old ones and one more, numbered by the
former count plus 1. Only the last case counts as a successful `AddComment`. -/
theorem call_effect (s : Store) (op : Op) :
    ((call s op).2 = s ∧ ∀ id, commentCount id s op = 0) ∨
    (∃ n : Post, n.Comments = [] ∧ (call s op).2.posts = s.posts ++ [n] ∧
      ∀ id, commentCount id s op = 0) ∨
    (∃ pre p suf q, s.posts = pre ++ p :: suf ∧ (∀ r ∈ pre, r.ID ≠ p.ID) ∧ q.ID = p.ID ∧
      (call s op).2.posts = pre ++ q :: suf ∧
      ((q.Comments = p.Comments ∧ ∀ id, commentCount id s op = 0) ∨
       (∃ c : Comment, q.Comments = p.Comments ++ [c] ∧ c.ID = (p.Comments.length : Int) + 1 ∧
         ∀ id, commentCount id s op = if p.ID = id then 1 else 0))) := by
  cases op with
  | createPost content =>
    rcases CreatePost_cases s content with ⟨_, h⟩ | ⟨_, _, _, h⟩ | ⟨_, _, _, h⟩
    · left
      simp [call, commentCount, h]
    · left
      simp [call, commentCount, h]
    · right
      left
      exact ⟨{ ID := s.postIDCounter, Content := content, Likes := 0, Comments := [],
               CreatedAt := s.now, UpdatedAt := s.now }, rfl, by simp [call, h],
             by simp [commentCount]⟩
  | updatePost id newContent clock =>
    rcases UpdatePost_cases s id newContent clock with ⟨_, h⟩ | ⟨_, _, h⟩ | ⟨_, _, _, h⟩ |
      ⟨_, _, pre, p, suf, hsplit, hpre, hp, h⟩
    · left
      simp [call, commentCount, h]
    · left
      simp [call, commentCount, h]
    · left
      simp [call, commentCount, h]
    · right
      right
      refine ⟨pre, p, suf, { p with Content := newContent, UpdatedAt := clock }, hsplit,
        by rw [hp]; exact hpre, rfl, by simp [call, h], ?_⟩
      left
      exact ⟨rfl, by simp [commentCount]⟩
  | getAllPosts =>
    left
    simp [call, commentCount, GetAllPosts]
  | likePost id =>
    rcases LikePost_cases s id with ⟨_, h⟩ | ⟨pre, p, suf, hsplit, hpre, hp, h⟩
    · left
      simp [call, commentCount, h]
    · right
      right
      refine ⟨pre, p, suf, { p with Likes := p.Likes + 1 }, hsplit,
        by rw [hp]; exact hpre, rfl, by simp [call, h], ?_⟩
      left
      exact ⟨rfl, by simp [commentCount]⟩
  | getPostDetailsByID id =>
    left
    simp [call, commentCount, GetPostDetailsByID_store]
  | addComment postID comment =>
    rcases AddComment_cases s postID comment with ⟨_, h⟩ | ⟨_, _, h⟩ | ⟨_, _, _, h⟩ |
      ⟨_, _, pre, p, suf, hsplit, hpre, hp, h⟩
    · left
      simp [call, commentCount, h, Outcome.ofExcept, Outcome.isFailure]
    · left
      simp [call, commentCount, h, Outcome.ofExcept, Outcome.isFailure]
    · left
      simp [call, commentCount, h, Outcome.ofExcept, Outcome.isFailure]
    · right
      right
      refine ⟨pre, p, suf, { p with Comments := p.Comments ++
          [{ ID := (p.Comments.length : Int) + 1, Text := comment.Text, CreatedAt := s.now }] },
        hsplit, by rw [hp]; exact hpre, rfl, by simp [call, h], ?_⟩
      right
      refine ⟨{ ID := (p.Comments.length : Int) + 1, Text := comment.Text, CreatedAt := s.now },
        rfl, rfl, ?_⟩
      intro id
      simp [call, commentCount, h, Outcome.ofExcept, Outcome.isFailure, hp]

theorem rangeFind_append_fresh (id : Int) (n : Post) (hn : n.Comments = []) (ps : List Post) :
    ((rangeFind id (ps ++ [n])).map (fun p => p.Comments.length)).getD 0 =
      ((rangeFind id ps).map (fun p => p.Comments.length)).getD 0 := by
  induction ps with
  | nil =>
    by_cases h : n.ID = id
    · simp [rangeFind, h, hn]
    · simp [rangeFind, h]
  | cons a t ih =>
    by_cases h : a.ID = id
    · simp [rangeFind, h]
    · simpa [rangeFind, h] using ih

theorem rangeFind_replace_other (id : Int) (p q : Post) (hq : q.ID = p.ID) (hp : p.ID ≠ id)
    (pre suf : List Post) :
    rangeFind id (pre ++ q :: suf) = rangeFind id (pre ++ p :: suf) := by
  induction pre with
  | nil =>
    have hq1 : q.ID ≠ id := by rw [hq]; exact hp
    simp [rangeFind, hp, hq1]
  | cons a t ih =>
    by_cases h : a.ID = id
    · simp [rangeFind, h]
    · simpa [rangeFind, h] using ih

/-- One call adds to the comment count of the post with the id exactly when it is
an `AddComment` for that id that returns a post. -/
theorem call_commentsOf (id : Int) (s : Store) (op : Op) :
    commentsOf id (call s op).2 = commentsOf id s + commentCount id s op := by
  rcases call_effect s op with ⟨h, hc⟩ | ⟨n, hn, h, hc⟩ |
      ⟨pre, p, suf, q, hsplit, hpre, hq, h, hcase⟩
  · rw [h, hc]
    rfl
  · rw [hc]
    unfold commentsOf
    rw [h, rangeFind_append_fresh id n hn]
    rfl
  · unfold commentsOf
    rw [h, hsplit]
    by_cases hid : p.ID = id
    · have hpre1 : ∀ r ∈ pre, r.ID ≠ id := by rw [← hid]; exact hpre
      rw [rangeFind_append_cons id pre q suf hpre1 (by rw [hq]; exact hid),
        rangeFind_append_cons id pre p suf hpre1 hid]
      rcases hcase with ⟨hcom, hc⟩ | ⟨c, hcom, _, hc⟩
      · simp [hc, hcom]
      · simp [hc, hcom, hid]
    · rw [rangeFind_replace_other id p q hq hid]
      rcases hcase with ⟨_, hc⟩ | ⟨c, _, _, hc⟩
      · simp [hc]
      · simp [hc, hid]

theorem run_commentsOf (id : Int) (ops : List Op) : ∀ s : Store,
    commentsOf id (run s ops) = commentsOf id s + successfulComments id s ops := by
  induction ops with
  | nil =>
    intro s
    simp [run, successfulComments]
  | cons op ops ih =>
    intro s
    simp only [run, successfulComments]
    rw [ih, call_commentsOf]
    omega

/-- One call keeps the comments of every post numbered `1, 2, ...` in order. -/
theorem call_numbered (s : Store) (op : Op)
    (hs : ∀ p ∈ s.posts, p.Comments.map Comment.ID = idsUpTo p.Comments.length) :
    ∀ p ∈ (call s op).2.posts, p.Comments.map Comment.ID = idsUpTo p.Comments.length := by
  rcases call_effect s op with ⟨h, _⟩ | ⟨n, hn, h, _⟩ |
      ⟨pre, p, suf, q, hsplit, _, _, h, hcase⟩
  · rw [h]
    exact hs
  · rw [h]
    intro r hr
    rcases List.mem_append.mp hr with h1 | h1
    · exact hs r h1
    · have : r = n := by simpa using h1
      rw [this, hn]
      rfl
  · rw [h]
    intro r hr
    have hp : p.Comments.map Comment.ID = idsUpTo p.Comments.length :=
      hs p (by rw [hsplit]; simp)
    have hcases : r ∈ pre ∨ r = q ∨ r ∈ suf := by
      simpa [List.mem_append, List.mem_cons] using hr
    rcases hcases with h1 | h1 | h1
    · exact hs r (by rw [hsplit]; simp [h1])
    · rw [h1]
      rcases hcase with ⟨hcom, _⟩ | ⟨c, hcom, hc, _⟩
      · rw [hcom]
        exact hp
      · rw [hcom]
        simp [hp, hc, idsUpTo_succ]
    · exact hs r (by rw [hsplit]; simp [h1])

theorem run_numbered (ops : List Op) : ∀ s : Store,
    (∀ p ∈ s.posts, p.Comments.map Comment.ID = idsUpTo p.Comments.length) →
    ∀ p ∈ (run s ops).posts, p.Comments.map Comment.ID = idsUpTo p.Comments.length := by
  induction ops with
  | nil =>
    intro s hs
    exact hs
  | cons op ops ih =>
    intro s hs
    exact ih (call s op).2 (call_numbered s op hs)

/-- In a list with pairwise distinct ids, looking up the id of a member finds it. -/
theorem rangeFind_of_mem_nodup (ps : List Post) (hnd : (ps.map Post.ID).Nodup) (p : Post)
    (hp : p ∈ ps) : rangeFind p.ID ps = some p := by
  induction ps with
  | nil => simp at hp
  | cons a t ih =>
    rw [List.map_cons, List.nodup_cons] at hnd
    rcases List.mem_cons.mp hp with h1 | h1
    · rw [h1]
      simp [rangeFind]
    · have hne : a.ID ≠ p.ID := by
        intro h
        exact hnd.1 (h ▸ List.mem_map_of_mem Post.ID h1)
      simp [rangeFind, hne, ih hnd.2 h1]

/-- C9: in the store reached from the empty initial store by any sequence of calls,
every stored post (each was made by `CreatePost`) carries comments with the ids
`1, 2, ..., K` in insertion order, where `K` is the number of `AddComment` calls
for the id of that post that returned a post, whatever that id is and whatever
other calls came in between; so the comment ids within a post are pairwise
distinct. -/
theorem C9_comment_ids_per_post (startup : Time) (ops : List Op) (p : Post)
    (hp : p ∈ (run (initStore startup) ops).posts) :
    p.Comments.map Comment.ID = idsUpTo (successfulComments p.ID (initStore startup) ops) ∧
    p.Comments.length = successfulComments p.ID (initStore startup) ops ∧
    (p.Comments.map Comment.ID).Nodup := by
  have hnum := run_numbered ops (initStore startup) (by simp [initStore]) p hp
  have hids := run_ids ops (initStore startup) 0 (by simp [initStore, idsUpTo])
    (by simp [initStore])
  have hnd : ((run (initStore startup) ops).posts.map Post.ID).Nodup := by
    rw [hids.1]
    exact idsUpTo_nodup _
  have hfind := rangeFind_of_mem_nodup _ hnd p hp
  have hcount := run_commentsOf p.ID ops (initStore startup)
  have h0 : commentsOf p.ID (initStore startup) = 0 := rfl
  have h1 : commentsOf p.ID (run (initStore startup) ops) = p.Comments.length := by
    unfold commentsOf
    rw [hfind]
    rfl
  have hlen : p.Comments.length = successfulComments p.ID (initStore startup) ops := by
    omega
  refine ⟨by rw [hnum, hlen], hlen, ?_⟩
  rw [hnum]
  exact idsUpTo_nodup _

/-- C9 at the second post of a run with two posts: two comments go to post 2, one
to post 1 in between, one blank comment and one for a missing post fail. -/
theorem C9_comment_ids_per_post_witness :
    (({ ID := 2, Content := "b", Likes := 1,
        Comments := [{ ID := 1, Text := "x", CreatedAt := 4 }, { ID := 2, Text := "z", CreatedAt := 4 }],
        CreatedAt := 4, UpdatedAt := 4 } : Post) ∈
      (run (initStore 4)
        [.createPost "a", .createPost "b", .addComment 2 { ID := 9, Text := "x", CreatedAt := 0 },
         .addComment 1 { ID := 9, Text := "y", CreatedAt := 0 }, .likePost 2,
         .addComment 2 { ID := 9, Text := " ", CreatedAt := 0 },
         .addComment 7 { ID := 9, Text := "w", CreatedAt := 0 },
         .addComment 2 { ID := 9, Text := "z", CreatedAt := 0 }]).posts) ∧
    successfulComments 2 (initStore 4)
        [.createPost "a", .createPost "b", .addComment 2 { ID := 9, Text := "x", CreatedAt := 0 },
         .addComment 1 { ID := 9, Text := "y", CreatedAt := 0 }, .likePost 2,
         .addComment 2 { ID := 9, Text := " ", CreatedAt := 0 },
         .addComment 7 { ID := 9, Text := "w", CreatedAt := 0 },
         .addComment 2 { ID := 9, Text := "z", CreatedAt := 0 }] = 2 ∧
    [(1 : Int), 2] = idsUpTo (successfulComments 2 (initStore 4)
        [.createPost "a", .createPost "b", .addComment 2 { ID := 9, Text := "x", CreatedAt := 0 },
         .addComment 1 { ID := 9, Text := "y", CreatedAt := 0 }, .likePost 2,
         .addComment 2 { ID := 9, Text := " ", CreatedAt := 0 },
         .addComment 7 { ID := 9, Text := "w", CreatedAt := 0 },
         .addComment 2 { ID := 9, Text := "z", CreatedAt := 0 }]) :=
  ⟨by decide, by decide,
   (C9_comment_ids_per_post 4
      [.createPost "a", .createPost "b", .addComment 2 { ID := 9, Text := "x", CreatedAt := 0 },
       .addComment 1 { ID := 9, Text := "y", CreatedAt := 0 }, .likePost 2,
       .addComment 2 { ID := 9, Text := " ", CreatedAt := 0 },
       .addComment 7 { ID := 9, Text := "w", CreatedAt := 0 },
       .addComment 2 { ID := 9, Text := "z", CreatedAt := 0 }]
      { ID := 2, Content := "b", Likes := 1,
        Comments := [{ ID := 1, Text := "x", CreatedAt := 4 }, { ID := 2, Text := "z", CreatedAt := 4 }],
        CreatedAt := 4, UpdatedAt := 4 } (by decide)).1⟩

/-! ## Reading posts -/

/-- What `GetPostDetailsByID` does on each of its two paths. -/
theorem GetPostDetailsByID_cases (s : Store) (id : Int) :
    ((∀ q ∈ s.posts, q.ID ≠ id) ∧ GetPostDetailsByID s id = (.error .postNotFound, s)) ∨
    (∃ pre p suf, s.posts = pre ++ p :: suf ∧ (∀ q ∈ pre, q.ID ≠ id) ∧ p.ID = id ∧
      GetPostDetailsByID s id = (.ok p, s)) := by
  unfold GetPostDetailsByID
  by_cases h : ∃ p ∈ s.posts, p.ID = id
  · right
    obtain ⟨pre, p, suf, hsplit, hpre, hp⟩ := exists_first_with_id id s.posts h
    refine ⟨pre, p, suf, hsplit, hpre, hp, ?_⟩
    have hf : rangeFind id s.posts = some p := by
      rw [hsplit]
      exact rangeFind_append_cons id pre p suf hpre hp
    rw [hf]
  · left
    have hall : ∀ q ∈ s.posts, q.ID ≠ id := fun q hq hid => h ⟨q, hq, hid⟩
    refine ⟨hall, ?_⟩
    rw [(rangeFind_eq_none_iff id s.posts).mpr hall]

/-- C11: when some stored post has the id, `GetPostDetailsByID` returns the first
stored post with that id, the very element of the list, with all its fields and
all its comments in order; it answers "post not found" exactly when no stored post
has the id, and gives no other error; in every case the store is as before. -/
theorem C11_getPostDetailsByID_reads_stored_post (s : Store) (id : Int) :
    ((∃ q ∈ s.posts, q.ID = id) →
      ∃ pre p suf, s.posts = pre ++ p :: suf ∧ (∀ q ∈ pre, q.ID ≠ id) ∧ p.ID = id ∧
        GetPostDetailsByID s id = (.ok p, s)) ∧
    ((GetPostDetailsByID s id).1 = .error .postNotFound ↔ ∀ q ∈ s.posts, q.ID ≠ id) ∧
    (∀ e, (GetPostDetailsByID s id).1 = .error e → e = .postNotFound) ∧
    (GetPostDetailsByID s id).2 = s := by
  rcases GetPostDetailsByID_cases s id with ⟨hall, h⟩ | ⟨pre, p, suf, hsplit, hpre, hp, h⟩
  · refine ⟨?_, ?_, ?_, ?_⟩
    · rintro ⟨q, hq, hid⟩
      exact absurd hid (hall q hq)
    · rw [h]
      exact ⟨fun _ => hall, fun _ => rfl⟩
    · intro e he
      rw [h] at he
      injection he with he
      exact he.symm
    · rw [h]
  · refine ⟨fun _ => ⟨pre, p, suf, hsplit, hpre, hp, h⟩, ?_, ?_, ?_⟩
    · rw [h]
      constructor
      · intro hh
        simp at hh
      · intro hall
        exact absurd hp (hall p (by rw [hsplit]; simp))
    · intro e he
      rw [h] at he
      simp at he
    · rw [h]

/-- C11 at the first post of the example store, which has a comment. -/
theorem C11_getPostDetailsByID_reads_stored_post_witness :
    ∃ pre p suf, demoStore.posts = pre ++ p :: suf ∧ (∀ q ∈ pre, q.ID ≠ 1) ∧ p.ID = 1 ∧
      GetPostDetailsByID demoStore 1 = (.ok p, demoStore) :=
  (C11_getPostDetailsByID_reads_stored_post demoStore 1).1 (by decide)

/-- C13: `GetAllPosts` returns the stored list itself, every post, unfiltered and in
collection order, so the result is as long as the store has posts, and the store is
as before; on a store reached from the initial one the result carries the ids
`1, 2, ..., n` in creation order. -/
theorem C13_getAllPosts_returns_all (s : Store) (startup : Time) (ops : List Op) :
    (GetAllPosts s).1 = s.posts ∧
    (GetAllPosts s).1.length = s.posts.length ∧
    (GetAllPosts s).2 = s ∧
    (GetAllPosts (run (initStore startup) ops)).1.map Post.ID =
      idsUpTo (successfulCreates (initStore startup) ops) := by
  refine ⟨rfl, rfl, rfl, ?_⟩
  have h := run_ids ops (initStore startup) 0 (by simp [initStore, idsUpTo]) (by simp [initStore])
  simp only [Nat.zero_add] at h
  exact h.1

/-- C17, as stated, fails: the post returned for id 1 of the example store is the
stored post with its one comment, not a post without comments. -/
theorem C17_returned_post_has_comments :
    (∃ q ∈ demoStore.posts, q.ID = 1) ∧
    (GetPostDetailsByID demoStore 1).1 = .ok demoPost ∧
    demoPost.Comments = [{ ID := 1, Text := "nice", CreatedAt := 3 }] ∧
    ¬ (∀ p, (GetPostDetailsByID demoStore 1).1 = .ok p → p.Comments = []) := by
  refine ⟨by decide, rfl, rfl, ?_⟩
  intro h
  have := h demoPost rfl
  exact absurd this (by decide)

/-- C17, amended: for every id of a stored post, the post that `GetPostDetailsByID`
returns carries the comments of the stored post, all of them in order; its comment
list is empty only when the stored post has no comments. -/
theorem C17_getPostDetailsByID_keeps_comments (s : Store) (id : Int)
    (hex : ∃ q ∈ s.posts, q.ID = id) :
    ∃ pre p suf r, s.posts = pre ++ p :: suf ∧ (∀ q ∈ pre, q.ID ≠ id) ∧ p.ID = id ∧
      (GetPostDetailsByID s id).1 = .ok r ∧ r.Comments = p.Comments ∧
      (r.Comments = [] ↔ p.Comments = []) := by
  rcases GetPostDetailsByID_cases s id with ⟨hall, _⟩ | ⟨pre, p, suf, hsplit, hpre, hp, h⟩
  · obtain ⟨q, hq, hid⟩ := hex
    exact absurd hid (hall q hq)
  · exact ⟨pre, p, suf, p, hsplit, hpre, hp, by rw [h], rfl, Iff.rfl⟩

/-- C17, amended, at the first post of the example store. -/
theorem C17_getPostDetailsByID_keeps_comments_witness :
    ∃ pre p suf r, demoStore.posts = pre ++ p :: suf ∧ (∀ q ∈ pre, q.ID ≠ 1) ∧ p.ID = 1 ∧
      (GetPostDetailsByID demoStore 1).1 = .ok r ∧ r.Comments = p.Comments ∧
      (r.Comments = [] ↔ p.Comments = []) :=
  C17_getPostDetailsByID_keeps_comments demoStore 1 (by decide)

/-! ## Timestamps, and reading back what a call returned -/

/-- A call whose outcome is an error hands back the store it was given. -/
theorem call_failure_store (s : Store) (op : Op) (h : (call s op).1.isFailure = true) :
    (call s op).2 = s := by
  cases op with
  | createPost content =>
    rcases CreatePost_cases s content with ⟨_, hc⟩ | ⟨_, _, _, hc⟩ | ⟨_, _, _, hc⟩
    · simp [call, hc]
    · simp [call, hc]
    · simp [call, hc, Outcome.ofExcept, Outcome.isFailure] at h
  | updatePost id newContent clock =>
    rcases UpdatePost_cases s id newContent clock with ⟨_, hc⟩ | ⟨_, _, hc⟩ | ⟨_, _, _, hc⟩ |
      ⟨_, _, pre, p, suf, _, _, _, hc⟩
    · simp [call, hc]
    · simp [call, hc]
    · simp [call, hc]
    · simp [call, hc, Outcome.ofExcept, Outcome.isFailure] at h
  | getAllPosts => simp [call, GetAllPosts]
  | likePost id =>
    rcases LikePost_cases s id with ⟨_, hc⟩ | ⟨pre, p, suf, _, _, _, hc⟩
    · simp [call, hc]
    · simp [call, hc, Outcome.ofExcept, Outcome.isFailure] at h
  | getPostDetailsByID id => simp [call, GetPostDetailsByID_store]
  | addComment postID comment =>
    rcases AddComment_cases s postID comment with ⟨_, hc⟩ | ⟨_, _, hc⟩ | ⟨_, _, _, hc⟩ |
      ⟨_, _, pre, p, suf, _, _, _, hc⟩
    · simp [call, hc]
    · simp [call, hc]
    · simp [call, hc]
    · simp [call, hc, Outcome.ofExcept, Outcome.isFailure] at h

/-- `LikePost` keeps the creation and update times of every post. -/
theorem LikePost_times (s : Store) (id : Int) :
    (LikePost s id).2.posts.map (fun p => (p.CreatedAt, p.UpdatedAt)) =
      s.posts.map (fun p => (p.CreatedAt, p.UpdatedAt)) := by
  rcases LikePost_cases s id with ⟨_, hc⟩ | ⟨pre, p, suf, hsplit, _, _, hc⟩
  · rw [hc]
  · rw [hc, hsplit]
    simp

/-- `AddComment` keeps the creation and update times of every post. -/
theorem AddComment_times (s : Store) (postID : Int) (comment : Comment) :
    (AddComment s postID comment).2.posts.map (fun p => (p.CreatedAt, p.UpdatedAt)) =
      s.posts.map (fun p => (p.CreatedAt, p.UpdatedAt)) := by
  rcases AddComment_cases s postID comment with ⟨_, hc⟩ | ⟨_, _, hc⟩ | ⟨_, _, _, hc⟩ |
      ⟨_, _, pre, p, suf, hsplit, _, _, hc⟩
  · rw [hc]
  · rw [hc]
  · rw [hc]
  · rw [hc, hsplit]
    simp

/-- C18: a `LikePost` or `AddComment` call, successful or not, and every call that
fails, leaves the creation time and the update time of every post as they were. A
successful `UpdatePost` replaces the first post with the id by the returned post and
leaves every other post as it was; the returned post has the creation time of the
post it replaces, and its update time is the clock reading of the call. -/
theorem C18_update_time_only_on_edit (s : Store) (op : Op) :
    (((∃ id, op = .likePost id) ∨ (∃ postID comment, op = .addComment postID comment) ∨
        (call s op).1.isFailure = true) →
      (call s op).2.posts.map (fun p => (p.CreatedAt, p.UpdatedAt)) =
        s.posts.map (fun p => (p.CreatedAt, p.UpdatedAt))) ∧
    (∀ id newContent clock r, op = .updatePost id newContent clock →
      (call s op).1 = Outcome.post r →
      ∃ pre p suf, s.posts = pre ++ p :: suf ∧ (∀ q ∈ pre, q.ID ≠ id) ∧ p.ID = id ∧
        (call s op).2.posts = pre ++ r :: suf ∧ r.CreatedAt = p.CreatedAt ∧
        r.UpdatedAt = clock) := by
  constructor
  · rintro (⟨id, rfl⟩ | ⟨postID, comment, rfl⟩ | hfail)
    · exact LikePost_times s id
    · exact AddComment_times s postID comment
    · rw [call_failure_store s op hfail]
  · rintro id newContent clock r rfl hr
    rcases UpdatePost_cases s id newContent clock with ⟨_, hc⟩ | ⟨_, _, hc⟩ | ⟨_, _, _, hc⟩ |
      ⟨_, _, pre, p, suf, hsplit, hpre, hp, hc⟩
    · simp [call, hc, Outcome.ofExcept] at hr
    · simp [call, hc, Outcome.ofExcept] at hr
    · simp [call, hc, Outcome.ofExcept] at hr
    · simp only [call, hc, Outcome.ofExcept] at hr ⊢
      injection hr with hr
      subst hr
      exact ⟨pre, p, suf, hsplit, hpre, hp, rfl, rfl, rfl⟩

/-- C18 at a like of the first post of the example store. -/
theorem C18_update_time_only_on_edit_witness :
    (call demoStore (.likePost 1)).2.posts.map (fun p => (p.CreatedAt, p.UpdatedAt)) =
      demoStore.posts.map (fun p => (p.CreatedAt, p.UpdatedAt)) :=
  (C18_update_time_only_on_edit demoStore (.likePost 1)).1 (Or.inl ⟨1, rfl⟩)

theorem mem_idsUpTo (n : Nat) (x : Int) (h : x ∈ idsUpTo n) : 1 ≤ x ∧ x ≤ (n : Int) := by
  unfold idsUpTo at h
  obtain ⟨i, hi, rfl⟩ := List.mem_map.mp h
  have := List.mem_range.mp hi
  omega

/-- On a store reached from the initial one no post carries the id that the next
`CreatePost` will hand out. -/
theorem run_counter_fresh (startup : Time) (ops : List Op) :
    ∀ q ∈ (run (initStore startup) ops).posts,
      q.ID ≠ (run (initStore startup) ops).postIDCounter := by
  have h := run_ids ops (initStore startup) 0 (by simp [initStore, idsUpTo]) (by simp [initStore])
  intro q hq hid
  have hmem : q.ID ∈ idsUpTo (0 + successfulCreates (initStore startup) ops) := by
    rw [← h.1]
    exact List.mem_map_of_mem Post.ID hq
  have := mem_idsUpTo _ _ hmem
  rw [h.2] at hid
  omega

/-- Reading back by id the post that a call returned gives that post, provided
no stored post already carries the id of the counter. -/
theorem call_then_get (s : Store) (hfresh : ∀ q ∈ s.posts, q.ID ≠ s.postIDCounter)
    (op : Op) (p : Post) (h : (call s op).1 = Outcome.post p) :
    GetPostDetailsByID (call s op).2 p.ID = (.ok p, (call s op).2) := by
  have key : ∀ (t : Store) (pre suf : List Post), t.posts = pre ++ p :: suf →
      (∀ q ∈ pre, q.ID ≠ p.ID) → GetPostDetailsByID t p.ID = (.ok p, t) := by
    intro t pre suf ht hpre
    unfold GetPostDetailsByID
    rw [ht, rangeFind_append_cons p.ID pre p suf hpre rfl]
  cases op with
  | createPost content =>
    rcases CreatePost_cases s content with ⟨_, hc⟩ | ⟨_, _, _, hc⟩ | ⟨_, _, _, hc⟩
    · simp [call, hc, Outcome.ofExcept] at h
    · simp [call, hc, Outcome.ofExcept] at h
    · simp only [call, hc, Outcome.ofExcept] at h ⊢
      injection h with h
      subst h
      exact key _ s.posts [] rfl hfresh
  | updatePost id newContent clock =>
    rcases UpdatePost_cases s id newContent clock with ⟨_, hc⟩ | ⟨_, _, hc⟩ | ⟨_, _, _, hc⟩ |
      ⟨_, _, pre, q, suf, _, hpre, hq, hc⟩
    · simp [call, hc, Outcome.ofExcept] at h
    · simp [call, hc, Outcome.ofExcept] at h
    · simp [call, hc, Outcome.ofExcept] at h
    · simp only [call, hc, Outcome.ofExcept] at h ⊢
      injection h with h
      subst h
      exact key _ pre suf rfl (by simpa [hq] using hpre)
  | getAllPosts => simp [call] at h
  | likePost id =>
    rcases LikePost_cases s id with ⟨_, hc⟩ | ⟨pre, q, suf, _, hpre, hq, hc⟩
    · simp [call, hc, Outcome.ofExcept] at h
    · simp only [call, hc, Outcome.ofExcept] at h ⊢
      injection h with h
      subst h
      exact key _ pre suf rfl (by simpa [hq] using hpre)
  | getPostDetailsByID id =>
    rcases GetPostDetailsByID_cases s id with ⟨_, hc⟩ | ⟨pre, q, suf, hsplit, hpre, hq, hc⟩
    · simp [call, hc, Outcome.ofExcept] at h
    · simp only [call, hc, Outcome.ofExcept] at h ⊢
      injection h with h
      subst h
      exact key _ pre suf hsplit (by simpa [hq] using hpre)
  | addComment postID comment =>
    rcases AddComment_cases s postID comment with ⟨_, hc⟩ | ⟨_, _, hc⟩ | ⟨_, _, _, hc⟩ |
      ⟨_, _, pre, q, suf, _, hpre, hq, hc⟩
    · simp [call, hc, Outcome.ofExcept] at h
    · simp [call, hc, Outcome.ofExcept] at h
    · simp [call, hc, Outcome.ofExcept] at h
    · simp only [call, hc, Outcome.ofExcept] at h ⊢
      injection h with h
      subst h
      exact key _ pre suf rfl (by simpa [hq] using hpre)

/-- C19: on every store reached from the initial empty store, when a call of
`CreatePost`, `UpdatePost`, `LikePost` or `AddComment` (or any other call) returns a
post, a `GetPostDetailsByID` with the id of that post on the store after the call
succeeds, returns exactly that post, with the same content, likes and comments, and
leaves the store as it is. -/
theorem C19_read_back_returned_post (startup : Time) (ops : List Op) (op : Op) (p : Post)
    (h : (call (run (initStore startup) ops) op).1 = Outcome.post p) :
    GetPostDetailsByID (call (run (initStore startup) ops) op).2 p.ID =
      (.ok p, (call (run (initStore startup) ops) op).2) :=
  call_then_get (run (initStore startup) ops) (run_counter_fresh startup ops) op p h

/-- C19 after two creates and a like: the comment added to post 2 is read back. -/
theorem C19_read_back_returned_post_witness :
    GetPostDetailsByID
        (call (run (initStore 4) [.createPost "a", .createPost "b", .likePost 2])
          (.addComment 2 { ID := 0, Text := "x", CreatedAt := 0 })).2 2 =
      (.ok { ID := 2, Content := "b", Likes := 1,
             Comments := [{ ID := 1, Text := "x", CreatedAt := 4 }],
             CreatedAt := 4, UpdatedAt := 4 },
       (call (run (initStore 4) [.createPost "a", .createPost "b", .likePost 2])
          (.addComment 2 { ID := 0, Text := "x", CreatedAt := 0 })).2) :=
  C19_read_back_returned_post 4 [.createPost "a", .createPost "b", .likePost 2]
    (.addComment 2 { ID := 0, Text := "x", CreatedAt := 0 })
    { ID := 2, Content := "b", Likes := 1,
      Comments := [{ ID := 1, Text := "x", CreatedAt := 4 }],
      CreatedAt := 4, UpdatedAt := 4 } (by decide)

/-! ## The list handler -/

theorem wrap64_of_fits (x : Int) (h0 : -(2 ^ 63) ≤ x) (h1 : x < 2 ^ 63) : wrap64 x = x := by
  unfold wrap64
  have e63 : (2 : Int) ^ 63 = 9223372036854775808 := by norm_num
  have e64 : (2 : Int) ^ 64 = 18446744073709551616 := by norm_num
  rw [e63] at h0 h1 ⊢
  rw [e64]
  omega

theorem positiveOr_pos (dflt : Int) (hd : 0 < dflt) (q : QueryInt) (n : Int)
    (h : positiveOr dflt q = some n) : 0 < n := by
  cases q with
  | absent =>
    simp only [positiveOr, Option.some.injEq] at h
    omega
  | notInt => simp [positiveOr] at h
  | parsed m =>
    simp only [positiveOr] at h
    split_ifs at h with hm
    simp only [Option.some.injEq] at h
    omega

/-- The list handler when `page * limit` fits the 64-bit range: the three replies,
with the slice taken at the exact bounds. -/
theorem handler_when_product_fits (s : Store) (pg lt : QueryInt) (page limit : Int)
    (hpg : positiveOr 1 pg = some page) (hlt : positiveOr 10 lt = some limit)
    (hfit : page * limit < 2 ^ 63) :
    GetAllPostsHandlerWithPagination s pg lt =
      if s.posts = [] then
        (.json 200 [("message", .text "No posts found")], s)
      else if (page - 1) * limit ≥ (s.posts.length : Int) then
        (.json 200 [("message", .text "No posts found"), ("page", .num page),
                    ("limit", .num limit), ("total", .num (s.posts.length : Int))], s)
      else
        (.json 200
          [("posts", .postList
              ((s.posts.take (min (page * limit) (s.posts.length : Int)).toNat).drop
                ((page - 1) * limit).toNat)),
           ("page", .num page), ("limit", .num limit),
           ("total", .num (s.posts.length : Int))], s) := by
  have hp := positiveOr_pos 1 (by decide) pg page hpg
  have hl := positiveOr_pos 10 (by decide) lt limit hlt
  have hge : limit ≤ page * limit := by nlinarith
  have hstart : (page - 1) * limit = page * limit - limit := by ring
  have e63 : (2 : Int) ^ 63 = 9223372036854775808 := by norm_num
  have hw1 : wrap64 ((page - 1) * limit) = (page - 1) * limit := by
    apply wrap64_of_fits <;> rw [hstart] <;> omega
  have hw2 : wrap64 ((page - 1) * limit + limit) = page * limit := by
    rw [hstart, wrap64_of_fits] <;> omega
  unfold GetAllPostsHandlerWithPagination
  simp only [hpg, hlt, GetAllPosts, hw1, hw2]
  by_cases hnil : s.posts = []
  · simp [hnil]
  · have hlen : (s.posts.length : Int) ≠ 0 := by
      have := List.length_pos.mpr hnil
      omega
    rw [if_neg hlen, if_neg hnil]
    by_cases hbeyond : (page - 1) * limit ≥ (s.posts.length : Int)
    · rw [if_pos hbeyond, if_pos hbeyond]
    · rw [if_neg hbeyond, if_neg hbeyond]
      have hmin : (if page * limit > (s.posts.length : Int) then (s.posts.length : Int)
          else page * limit) = min (page * limit) (s.posts.length : Int) := by
        split_ifs with h
        · rw [min_eq_right (le_of_lt h)]
        · rw [min_eq_left (by omega)]
      rw [hmin]
      have hslice : goSlice s.posts ((page - 1) * limit)
          (min (page * limit) (s.posts.length : Int)) =
          some ((s.posts.take (min (page * limit) (s.posts.length : Int)).toNat).drop
                ((page - 1) * limit).toNat) := by
        unfold goSlice
        rw [if_pos]
        refine ⟨by rw [hstart]; omega, ?_, min_le_right _ _⟩
        rw [hstart, le_min_iff]
        constructor <;> omega
      rw [hslice]

/-- When `page * limit` fits the 64-bit range, the page of a non-empty store is the
posts at the positions from `(page-1)*limit` up to `min(page*limit, total)`, and a
page that starts at or after `total` gets status 200 and no posts. -/
theorem pagination_when_product_fits (s : Store) (pg lt : QueryInt) (page limit : Int)
    (hpg : positiveOr 1 pg = some page) (hlt : positiveOr 10 lt = some limit)
    (hfit : page * limit < 2 ^ 63) (hne : s.posts ≠ []) :
    (GetAllPostsHandlerWithPagination s pg lt).1.status = some 200 ∧
    ((page - 1) * limit < (s.posts.length : Int) →
      (GetAllPostsHandlerWithPagination s pg lt).1.posts =
        some ((s.posts.take (min (page * limit) (s.posts.length : Int)).toNat).drop
                ((page - 1) * limit).toNat)) ∧
    ((page - 1) * limit ≥ (s.posts.length : Int) →
      (GetAllPostsHandlerWithPagination s pg lt).1.posts = none) := by
  rw [handler_when_product_fits s pg lt page limit hpg hlt hfit, if_neg hne]
  by_cases hbeyond : (page - 1) * limit ≥ (s.posts.length : Int)
  · rw [if_pos hbeyond]
    refine ⟨rfl, fun h => absurd hbeyond (by omega), fun _ => ?_⟩
    simp [Reply.posts, List.lookup]
  · rw [if_neg hbeyond]
    refine ⟨rfl, fun _ => ?_, fun h => absurd h hbeyond⟩
    simp [Reply.posts, List.lookup]

/-- The two examples of the pagination property: of 25 posts, page 3 with limit 10
is posts 21 to 25, and page 100 with limit 10 has status 200 and no posts. -/
theorem pagination_examples :
    (GetAllPostsHandlerWithPagination (storeOfSize 25) (.parsed 3) (.parsed 10)).1.posts.map
        (fun ps => ps.map Post.ID) = some [21, 22, 23, 24, 25] ∧
    (GetAllPostsHandlerWithPagination (storeOfSize 25) (.parsed 100) (.parsed 10)).1 =
      .json 200 [("message", .text "No posts found"), ("page", .num 100), ("limit", .num 10),
                 ("total", .num 25)] := by
  constructor <;> decide

/-- C12, on the code: with one stored post, `page=5` and `limit=2^62` ask for the
positions from `4 * 2^62` on, far beyond the only post, yet the handler answers 200
with that post: `(page-1)*limit` is `2^64`, which wraps to 0 in a 64-bit `int`. -/
theorem C12_large_page_wraps_to_first_page :
    (5 - 1) * (2 ^ 62 : Int) ≥ ((storeOfSize 1).posts.length : Int) ∧
    wrap64 ((5 - 1) * (2 ^ 62 : Int)) = 0 ∧
    (GetAllPostsHandlerWithPagination (storeOfSize 1) (.parsed 5) (.parsed (2 ^ 62))).1 =
      .json 200 [("posts", .postList (storeOfSize 1).posts), ("page", .num 5),
                 ("limit", .num (2 ^ 62)), ("total", .num 1)] := by
  refine ⟨by decide, by decide, by decide⟩

/-- C16, as stated, fails: on the empty store the 200 reply carries the field
`message` alone, and for a page beyond the last post it carries `message`, `page`,
`limit` and `total`, with no `posts` field. -/
theorem C16_reply_without_posts_field :
    (GetAllPostsHandlerWithPagination (initStore 0) (.parsed 1) (.parsed 10)).1 =
      .json 200 [("message", .text "No posts found")] ∧
    (GetAllPostsHandlerWithPagination (initStore 0) (.parsed 1) (.parsed 10)).1.fields =
      ["message"] ∧
    (GetAllPostsHandlerWithPagination (storeOfSize 25) (.parsed 100) (.parsed 10)).1.status =
      some 200 ∧
    (GetAllPostsHandlerWithPagination (storeOfSize 25) (.parsed 100) (.parsed 10)).1.fields =
      ["message", "page", "limit", "total"] := by
  refine ⟨by decide, by decide, by decide, by decide⟩

/-- C16, amended: for `page >= 1` and `limit >= 1` (given or by default) whose
product fits a 64-bit `int`, the list handler answers 200. The reply carries the
four fields `posts`, `page`, `limit` and `total` when the store is not empty and the
page starts before the last post; on the empty store it carries `message` alone; for
a page beyond the last post it carries `message`, `page`, `limit` and `total`. -/
theorem C16_list_reply_fields (s : Store) (pg lt : QueryInt) (page limit : Int)
    (hpg : positiveOr 1 pg = some page) (hlt : positiveOr 10 lt = some limit)
    (hfit : page * limit < 2 ^ 63) :
    (GetAllPostsHandlerWithPagination s pg lt).1.status = some 200 ∧
    (s.posts = [] → (GetAllPostsHandlerWithPagination s pg lt).1.fields = ["message"]) ∧
    (s.posts ≠ [] → (page - 1) * limit ≥ (s.posts.length : Int) →
      (GetAllPostsHandlerWithPagination s pg lt).1.fields =
        ["message", "page", "limit", "total"]) ∧
    (s.posts ≠ [] → (page - 1) * limit < (s.posts.length : Int) →
      (GetAllPostsHandlerWithPagination s pg lt).1.fields =
        ["posts", "page", "limit", "total"]) := by
  rw [handler_when_product_fits s pg lt page limit hpg hlt hfit]
  by_cases hnil : s.posts = []
  · rw [if_pos hnil]
    exact ⟨rfl, fun _ => rfl, fun h => absurd hnil h, fun h => absurd hnil h⟩
  · rw [if_neg hnil]
    by_cases hbeyond : (page - 1) * limit ≥ (s.posts.length : Int)
    · rw [if_pos hbeyond]
      exact ⟨rfl, fun h => absurd h hnil, fun _ _ => rfl, fun _ h => absurd hbeyond (by omega)⟩
    · rw [if_neg hbeyond]
      exact ⟨rfl, fun h => absurd h hnil, fun _ h => absurd h hbeyond, fun _ _ => rfl⟩

/-- C16, amended, at the second page of two of the example store, by default limit
and by given limit. -/
theorem C16_list_reply_fields_witness :
    (GetAllPostsHandlerWithPagination demoStore (.parsed 2) (.parsed 1)).1.status = some 200 ∧
    (GetAllPostsHandlerWithPagination demoStore (.parsed 2) (.parsed 1)).1.fields =
      ["posts", "page", "limit", "total"] :=
  ⟨(C16_list_reply_fields demoStore (.parsed 2) (.parsed 1) 2 1 rfl rfl (by decide)).1,
   (C16_list_reply_fields demoStore (.parsed 2) (.parsed 1) 2 1 rfl rfl (by decide)).2.2.2
     (by decide) (by decide)⟩

/-- When `page * limit` fits the 64-bit range the slice expression is in range: the
handler does not panic. -/
theorem handler_no_panic_when_product_fits (s : Store) (pg lt : QueryInt) (page limit : Int)
    (hpg : positiveOr 1 pg = some page) (hlt : positiveOr 10 lt = some limit)
    (hfit : page * limit < 2 ^ 63) :
    (GetAllPostsHandlerWithPagination s pg lt).1 ≠ .panicked := by
  rw [handler_when_product_fits s pg lt page limit hpg hlt hfit]
  split_ifs <;> simp

/-- C20, on the code: with one stored post, `page = 2^62 + 1` and `limit = 2`, both
64-bit `int` values, `(page-1)*limit` is `2^63` and wraps to `-2^63`; the test
`startIndex >= totalPosts` does not catch it, `endIndex` is `-2^63 + 2`, and the
slice expression `posts[startIndex:endIndex]` is evaluated with a negative start
index and panics. -/
theorem C20_negative_start_index_panics :
    (1 ≤ (2 ^ 62 + 1 : Int) ∧ (2 ^ 62 + 1 : Int) < 2 ^ 63) ∧
    wrap64 ((2 ^ 62 + 1 - 1) * 2) = -(2 ^ 63) ∧
    wrap64 (wrap64 ((2 ^ 62 + 1 - 1) * 2) + 2) = -(2 ^ 63) + 2 ∧
    goSlice (storeOfSize 1).posts (-(2 ^ 63)) (-(2 ^ 63) + 2) = none ∧
    (GetAllPostsHandlerWithPagination (storeOfSize 1) (.parsed (2 ^ 62 + 1)) (.parsed 2)).1 =
      .panicked := by
  refine ⟨by decide, by decide, by decide, by decide, by decide⟩

/-! ## The create handler -/

/-- Whatever content `CreatePost` rejects, the handler answers with status 404. -/
theorem CreatePostHandler_status_of_rejected (s : Store) (content : String) (e : Err)
    (h : (CreatePost s content).1 = .error e) :
    (CreatePostHandler s (some content)).1 =
      .json 404 [("error", .text ("Failed to create post: " ++ e.message))] := by
  unfold CreatePostHandler
  rcases CreatePost_cases s content with ⟨_, hc⟩ | ⟨_, _, _, hc⟩ | ⟨_, _, _, hc⟩
  · rw [hc] at h
    injection h with h
    subst h
    simp only [hc]
  · rw [hc] at h
    injection h with h
    subst h
    simp only [hc]
  · rw [hc] at h
    simp at h

/-- C15, on the code: the content of three spaces, which binds, is rejected by
`CreatePost`, and `CreatePostHandler` answers with status 404, not 400; so it does
for the content of 250 times `é`, which is over the length limit of the store. -/
theorem C15_createPostHandler_answers_404 (s : Store) :
    (CreatePost s "   ").1 = .error .postContentEmpty ∧
    (CreatePostHandler s (some "   ")).1 =
      .json 404 [("error", .text "Failed to create post: post content cannot be empty")] ∧
    (CreatePostHandler s (some "   ")).1.status = some 404 ∧
    (CreatePostHandler s (some (repeatChar 'é' 250))).1.status = some 404 ∧
    (CreatePostHandler s none).1.status = some 400 := by
  have h1 : (CreatePost s "   ").1 = .error .postContentEmpty := by
    unfold CreatePost
    rw [if_pos (Or.inr (by decide))]
  have h2 := CreatePostHandler_status_of_rejected s "   " .postContentEmpty h1
  have h3 : (CreatePost s (repeatChar 'é' 250)).1 = .error .postContentTooLong := by
    have hlen : goLen (repeatChar 'é' 250) = 500 := by
      rw [goLen_repeatChar]
      decide
    have htrim : TrimSpace (repeatChar 'é' 250) ≠ "" :=
      TrimSpace_repeatChar_ne 'é' 250 (by decide) (by decide)
    have hne : repeatChar 'é' 250 ≠ "" := repeatChar_ne_empty 'é' 250 (by decide)
    unfold CreatePost
    rw [if_neg (by simp [hne, htrim]), if_pos (by omega)]
  have h4 := CreatePostHandler_status_of_rejected s _ .postContentTooLong h3
  refine ⟨h1, ?_, ?_, ?_, rfl⟩
  · rw [h2]
    rfl
  · rw [h2]
    rfl
  · rw [h4]
    rfl

/-! ## Concurrent creates -/

theorem getElem?_split (l : List Goroutine) : ∀ (i : Nat) (g : Goroutine), l[i]? = some g →
    ∃ pre suf, l = pre ++ g :: suf ∧ pre.length = i ∧ ∀ g1, l.set i g1 = pre ++ g1 :: suf := by
  induction l with
  | nil =>
    intro i g h
    simp at h
  | cons a t ih =>
    intro i g h
    cases i with
    | zero =>
      simp only [List.getElem?_cons_zero, Option.some.injEq] at h
      subst h
      exact ⟨[], t, rfl, rfl, fun _ => rfl⟩
    | succ j =>
      simp only [List.getElem?_cons_succ] at h
      obtain ⟨pre, suf, hsplit, hlen, hset⟩ := ih j g h
      refine ⟨a :: pre, suf, by rw [hsplit]; rfl, by simp [hlen], ?_⟩
      intro g1
      simp [List.set, hset]

theorem stepAt_some (w w1 : World) (i : Nat) (h : w.stepAt i = some w1) :
    ∃ pre g suf store held g1, w.routines = pre ++ g :: suf ∧ pre.length = i ∧
      g.step w.store w.held = some (store, held, g1) ∧
      w1 = { store := store, held := held, routines := pre ++ g1 :: suf } := by
  unfold World.stepAt at h
  cases hg : w.routines[i]? with
  | none => simp [hg] at h
  | some g =>
    cases hs : g.step w.store w.held with
    | none => simp [hg, hs] at h
    | some r =>
      obtain ⟨store, held, g1⟩ := r
      obtain ⟨pre, suf, hsplit, hlen, hset⟩ := getElem?_split w.routines i g hg
      simp only [hg, hs, Option.some.injEq] at h
      exact ⟨pre, g, suf, store, held, g1, hsplit, hlen, hs, by rw [← h, hset]⟩

theorem tally_split (f : Pc → Nat) (pre : List Goroutine) (g : Goroutine) (suf : List Goroutine) :
    tally f (pre ++ g :: suf) = tally f pre + tally f suf + f g.pc := by
  simp [tally]
  omega

theorem tally_eq_zero (f : Pc → Nat) (rs : List Goroutine) (h : tally f rs = 0) :
    ∀ g ∈ rs, f g.pc = 0 := by
  induction rs with
  | nil => simp
  | cons a t ih =>
    simp only [tally, List.map_cons, List.sum_cons] at h
    intro g hg
    rcases List.mem_cons.mp hg with h1 | h1
    · rw [h1]
      omega
    · exact ih (by unfold tally; omega) g h1

theorem agrees_of_not_critical (a c : Nat) (pc : Pc) (h : pc.inCritical = 0) : pc.agrees a c := by
  cases pc <;> simp [Pc.inCritical] at h <;> simp [Pc.agrees]


theorem others_agree (pre suf : List Goroutine) (a c : Nat)
    (h : tally Pc.inCritical pre + tally Pc.inCritical suf = 0) :
    ∀ g, g ∈ pre ∨ g ∈ suf → g.pc.agrees a c := by
  intro g hg
  apply agrees_of_not_critical
  rcases hg with h1 | h1
  · exact tally_eq_zero _ pre (by omega) g h1
  · exact tally_eq_zero _ suf (by omega) g h1

/-- One statement of one goroutine keeps the invariant. -/
theorem Inv_step (store0 : Store) (held0 : Bool) (pre : List Goroutine) (g : Goroutine)
    (suf : List Goroutine) (store : Store) (held : Bool) (g1 : Goroutine)
    (hinv : World.Inv { store := store0, held := held0, routines := pre ++ g :: suf })
    (hstep : g.step store0 held0 = some (store, held, g1)) :
    World.Inv { store := store, held := held, routines := pre ++ g1 :: suf } := by
  obtain ⟨h1, h2, h3, h4, h5, h6⟩ := hinv
  simp only [tally_split] at h1 h2 h3 h4 h5
  have h4g := h4 g (by simp)
  have h4o : ∀ x, x ∈ pre ∨ x ∈ suf → x.pc.agrees
      (tally Pc.hasAppended pre + tally Pc.hasAppended suf + Pc.hasAppended g.pc)
      (tally Pc.hasCounted pre + tally Pc.hasCounted suf + Pc.hasCounted g.pc) := by
    intro x hx
    apply h4 x
    rcases hx with hx | hx <;> simp [hx]
  have h6o : ∀ x, x ∈ pre ∨ x ∈ suf → ∀ e, x.pc = .returned (.error e) →
      (TrimSpace x.content = "" ∨ 250 < goLen x.content) := by
    intro x hx
    apply h6 x
    rcases hx with hx | hx <;> simp [hx]
  have h6g := h6 g (by simp)
  obtain ⟨content, pc⟩ := g
  unfold World.Inv
  simp only [tally_split]
  cases pc with
  | start =>
    simp only [Goroutine.step] at hstep
    split_ifs at hstep with hA hB <;>
      simp only [Option.some.injEq, Prod.mk.injEq] at hstep <;>
      obtain ⟨rfl, rfl, rfl⟩ := hstep
    · refine ⟨h1, h2, h3, ?_, h5, ?_⟩
      · intro x hx
        simp only [List.mem_append, List.mem_cons] at hx
        rcases hx with hx | rfl | hx
        · exact h4o x (Or.inl hx)
        · trivial
        · exact h4o x (Or.inr hx)
      · intro x hx
        simp only [List.mem_append, List.mem_cons] at hx
        rcases hx with hx | rfl | hx
        · exact h6o x (Or.inl hx)
        · intro e _
          left
          rcases hA with hA | hA
          · rw [hA]
            exact TrimSpace_empty
          · exact hA
        · exact h6o x (Or.inr hx)
    · refine ⟨h1, h2, h3, ?_, h5, ?_⟩
      · intro x hx
        simp only [List.mem_append, List.mem_cons] at hx
        rcases hx with hx | rfl | hx
        · exact h4o x (Or.inl hx)
        · trivial
        · exact h4o x (Or.inr hx)
      · intro x hx
        simp only [List.mem_append, List.mem_cons] at hx
        rcases hx with hx | rfl | hx
        · exact h6o x (Or.inl hx)
        · intro e _
          right
          exact hB
        · exact h6o x (Or.inr hx)
    · refine ⟨h1, h2, h3, ?_, h5, ?_⟩
      · intro x hx
        simp only [List.mem_append, List.mem_cons] at hx
        rcases hx with hx | rfl | hx
        · exact h4o x (Or.inl hx)
        · trivial
        · exact h4o x (Or.inr hx)
      · intro x hx
        simp only [List.mem_append, List.mem_cons] at hx
        rcases hx with hx | rfl | hx
        · exact h6o x (Or.inl hx)
        · intro e he
          simp at he
        · exact h6o x (Or.inr hx)
  | atLock =>
    simp only [Goroutine.step] at hstep
    split_ifs at hstep with hh
    simp only [Option.some.injEq, Prod.mk.injEq] at hstep
    obtain ⟨rfl, rfl, rfl⟩ := hstep
    have hf : held0 = false := by simpa using hh
    subst hf
    simp only [Pc.inCritical, Pc.hasCounted, Pc.hasAppended, Nat.add_zero, if_true,
      Bool.false_eq_true, if_false] at h1 h2 h3 h4o h5 ⊢
    refine ⟨by omega, h2, h3, ?_, by simp, ?_⟩
    · intro x hx
      simp only [List.mem_append, List.mem_cons] at hx
      rcases hx with hx | rfl | hx
      · exact h4o x (Or.inl hx)
      · exact h5 trivial
      · exact h4o x (Or.inr hx)
    · intro x hx
      simp only [List.mem_append, List.mem_cons] at hx
      rcases hx with hx | rfl | hx
      · exact h6o x (Or.inl hx)
      · intro e he
        simp at he
      · exact h6o x (Or.inr hx)
  | locked =>
    simp only [Goroutine.step, Option.some.injEq, Prod.mk.injEq] at hstep
    obtain ⟨rfl, rfl, rfl⟩ := hstep
    simp only [Pc.inCritical, Pc.hasCounted, Pc.hasAppended, Pc.agrees, Nat.add_zero]
      at h1 h2 h3 h4g h4o h5 ⊢
    refine ⟨h1, h2, h3, ?_, h5, ?_⟩
    · intro x hx
      simp only [List.mem_append, List.mem_cons] at hx
      rcases hx with hx | rfl | hx
      · exact h4o x (Or.inl hx)
      · refine ⟨?_, h4g⟩
        show store0.postIDCounter = _
        rw [h3, h4g]
      · exact h4o x (Or.inr hx)
    · intro x hx
      simp only [List.mem_append, List.mem_cons] at hx
      rcases hx with hx | rfl | hx
      · exact h6o x (Or.inl hx)
      · intro e he
        simp at he
      · exact h6o x (Or.inr hx)
  | built post =>
    simp only [Goroutine.step, Option.some.injEq, Prod.mk.injEq] at hstep
    obtain ⟨rfl, rfl, rfl⟩ := hstep
    simp only [Pc.inCritical, Pc.hasCounted, Pc.hasAppended, Pc.agrees, Nat.add_zero]
      at h1 h2 h3 h4g h5 ⊢
    have hheld : held0 = true := by
      cases held0
      · simp at h1
      · rfl
    subst hheld
    simp only [if_true] at h1
    have hK : tally Pc.inCritical pre + tally Pc.inCritical suf = 0 := by omega
    refine ⟨by simpa using h1, h2, ?_, ?_, by simp, ?_⟩
    · show store0.postIDCounter + 1 = _
      rw [h3]
      push_cast
      ring
    · intro x hx
      simp only [List.mem_append, List.mem_cons] at hx
      rcases hx with hx | rfl | hx
      · exact others_agree pre suf _ _ hK x (Or.inl hx)
      · exact ⟨h4g.1, by omega⟩
      · exact others_agree pre suf _ _ hK x (Or.inr hx)
    · intro x hx
      simp only [List.mem_append, List.mem_cons] at hx
      rcases hx with hx | rfl | hx
      · exact h6o x (Or.inl hx)
      · intro e he
        simp at he
      · exact h6o x (Or.inr hx)
  | counted post =>
    simp only [Goroutine.step, Option.some.injEq, Prod.mk.injEq] at hstep
    obtain ⟨rfl, rfl, rfl⟩ := hstep
    simp only [Pc.inCritical, Pc.hasCounted, Pc.hasAppended, Pc.agrees, Nat.add_zero]
      at h1 h2 h3 h4g h5 ⊢
    have hheld : held0 = true := by
      cases held0
      · simp at h1
      · rfl
    subst hheld
    simp only [if_true] at h1
    have hK : tally Pc.inCritical pre + tally Pc.inCritical suf = 0 := by omega
    refine ⟨by simpa using h1, ?_, h3, ?_, by simp, ?_⟩
    · show (store0.posts ++ [post]).map Post.ID = _
      rw [List.map_append, h2, idsUpTo_succ]
      simp [h4g.1]
    · intro x hx
      simp only [List.mem_append, List.mem_cons] at hx
      rcases hx with hx | rfl | hx
      · exact others_agree pre suf _ _ hK x (Or.inl hx)
      · exact h4g.2
      · exact others_agree pre suf _ _ hK x (Or.inr hx)
    · intro x hx
      simp only [List.mem_append, List.mem_cons] at hx
      rcases hx with hx | rfl | hx
      · exact h6o x (Or.inl hx)
      · intro e he
        simp at he
      · exact h6o x (Or.inr hx)
  | appended post =>
    simp only [Goroutine.step, Option.some.injEq, Prod.mk.injEq] at hstep
    obtain ⟨rfl, rfl, rfl⟩ := hstep
    simp only [Pc.inCritical, Pc.hasCounted, Pc.hasAppended, Pc.agrees, Nat.add_zero]
      at h1 h2 h3 h4g h5 ⊢
    have hheld : held0 = true := by
      cases held0
      · simp at h1
      · rfl
    subst hheld
    simp only [if_true] at h1
    have hK : tally Pc.inCritical pre + tally Pc.inCritical suf = 0 := by omega
    refine ⟨by simpa using hK, h2, h3, ?_, fun _ => h4g, ?_⟩
    · intro x hx
      simp only [List.mem_append, List.mem_cons] at hx
      rcases hx with hx | rfl | hx
      · exact others_agree pre suf _ _ hK x (Or.inl hx)
      · trivial
      · exact others_agree pre suf _ _ hK x (Or.inr hx)
    · intro x hx
      simp only [List.mem_append, List.mem_cons] at hx
      rcases hx with hx | rfl | hx
      · exact h6o x (Or.inl hx)
      · intro e he
        simp at he
      · exact h6o x (Or.inr hx)
  | returned r => simp [Goroutine.step] at hstep


theorem tally_launch (f : Pc → Nat) (hf : f .start = 0) (contents : List String) :
    tally f (contents.map (fun c => ({ content := c, pc := .start } : Goroutine))) = 0 := by
  induction contents with
  | nil => rfl
  | cons c t ih =>
    unfold tally at ih ⊢
    simp only [List.map_cons, List.sum_cons, hf, ih]

/-- The invariant holds when the goroutines are launched. -/
theorem launch_Inv (startup : Time) (contents : List String) :
    (launch startup contents).Inv := by
  unfold World.Inv launch
  simp only [tally_launch Pc.inCritical rfl, tally_launch Pc.hasAppended rfl,
    tally_launch Pc.hasCounted rfl]
  refine ⟨?_, ?_, ?_, ?_, ?_, ?_⟩
  · simp
  · simp [initStore, idsUpTo]
  · simp [initStore]
  · intro g hg
    obtain ⟨c, _, rfl⟩ := List.mem_map.mp hg
    trivial
  · simp
  · intro g hg e he
    obtain ⟨c, _, rfl⟩ := List.mem_map.mp hg
    simp at he

/-- Every interleaving keeps the invariant. -/
theorem exec_Inv (schedule : List Nat) : ∀ w : World, w.Inv → (w.exec schedule).Inv := by
  induction schedule with
  | nil =>
    intro w hw
    exact hw
  | cons i rest ih =>
    intro w hw
    unfold World.exec
    cases hs : w.stepAt i with
    | none => exact ih w hw
    | some w1 =>
      obtain ⟨pre, g, suf, store, held, g1, hsplit, _, hstep, rfl⟩ := stepAt_some w w1 i hs
      apply ih
      apply Inv_step w.store w.held pre g suf store held g1 _ hstep
      rw [← hsplit]
      exact hw

theorem step_content (store : Store) (held : Bool) (g : Goroutine) (store1 : Store)
    (held1 : Bool) (g1 : Goroutine) (h : g.step store held = some (store1, held1, g1)) :
    g1.content = g.content ∧ g1.pc.remaining < g.pc.remaining := by
  obtain ⟨content, pc⟩ := g
  cases pc with
  | start =>
    simp only [Goroutine.step] at h
    split_ifs at h <;>
      simp only [Option.some.injEq, Prod.mk.injEq] at h <;>
      obtain ⟨_, _, rfl⟩ := h <;>
      simp [Pc.remaining]
  | atLock =>
    simp only [Goroutine.step] at h
    split_ifs at h
    simp only [Option.some.injEq, Prod.mk.injEq] at h
    obtain ⟨_, _, rfl⟩ := h
    simp [Pc.remaining]
  | returned r => simp [Goroutine.step] at h
  | locked =>
    simp only [Goroutine.step, Option.some.injEq, Prod.mk.injEq] at h
    obtain ⟨_, _, rfl⟩ := h
    simp [Pc.remaining]
  | built post =>
    simp only [Goroutine.step, Option.some.injEq, Prod.mk.injEq] at h
    obtain ⟨_, _, rfl⟩ := h
    simp [Pc.remaining]
  | counted post =>
    simp only [Goroutine.step, Option.some.injEq, Prod.mk.injEq] at h
    obtain ⟨_, _, rfl⟩ := h
    simp [Pc.remaining]
  | appended post =>
    simp only [Goroutine.step, Option.some.injEq, Prod.mk.injEq] at h
    obtain ⟨_, _, rfl⟩ := h
    simp [Pc.remaining]

/-- A statement of a goroutine uses up some of the statements left, and the
contents of the calls stay what they are. -/
theorem stepAt_progress (w w1 : World) (i : Nat) (h : w.stepAt i = some w1) :
    w1.routines.map Goroutine.content = w.routines.map Goroutine.content ∧
    tally Pc.remaining w1.routines < tally Pc.remaining w.routines := by
  obtain ⟨pre, g, suf, store, held, g1, hsplit, _, hstep, rfl⟩ := stepAt_some w w1 i h
  obtain ⟨hc, hr⟩ := step_content _ _ _ _ _ _ hstep
  rw [hsplit]
  simp only [tally_split, List.map_append, List.map_cons, hc, true_and]
  omega

theorem exec_contents (schedule : List Nat) : ∀ w : World,
    (w.exec schedule).routines.map Goroutine.content = w.routines.map Goroutine.content := by
  induction schedule with
  | nil =>
    intro w
    rfl
  | cons i rest ih =>
    intro w
    unfold World.exec
    cases hs : w.stepAt i with
    | none => exact ih w
    | some w1 =>
      simp only
      rw [ih w1, (stepAt_progress w w1 i hs).1]

theorem tally_eq_length (f : Pc → Nat) (rs : List Goroutine) (h : ∀ g ∈ rs, f g.pc = 1) :
    tally f rs = rs.length := by
  induction rs with
  | nil => rfl
  | cons a t ih =>
    have ha := h a (by simp)
    have := ih (fun g hg => h g (by simp [hg]))
    unfold tally at this ⊢
    simp only [List.map_cons, List.sum_cons, List.length_cons, ha, this]
    omega

/-- With the invariant, once all calls with valid contents have returned, the store
holds one post per call, with the ids `1..M`, and the counter is `M + 1`. -/
theorem Inv_all_returned (w : World) (hinv : w.Inv) (hall : w.allReturned = true)
    (hvalid : ∀ g ∈ w.routines, TrimSpace g.content ≠ "" ∧ goLen g.content ≤ 250) :
    w.store.posts.map Post.ID = idsUpTo w.routines.length ∧
    w.store.postIDCounter = (w.routines.length : Int) + 1 ∧
    w.held = false ∧
    ∀ g ∈ w.routines, ∃ post, g.pc = .returned (.ok post) := by
  obtain ⟨h1, h2, h3, _, _, h6⟩ := hinv
  have hok : ∀ g ∈ w.routines, ∃ post, g.pc = .returned (.ok post) := by
    intro g hg
    have hr : g.pc.isReturned = true := by
      unfold World.allReturned at hall
      exact List.all_eq_true.mp hall g hg
    cases hpc : g.pc with
    | returned r =>
      cases r with
      | ok post => exact ⟨post, rfl⟩
      | error e =>
        exfalso
        have hv := hvalid g hg
        rcases h6 g hg e hpc with h | h
        · exact hv.1 h
        · omega
    | start => simp [hpc, Pc.isReturned] at hr
    | atLock => simp [hpc, Pc.isReturned] at hr
    | locked => simp [hpc, Pc.isReturned] at hr
    | built post => simp [hpc, Pc.isReturned] at hr
    | counted post => simp [hpc, Pc.isReturned] at hr
    | appended post => simp [hpc, Pc.isReturned] at hr
  have hA : tally Pc.hasAppended w.routines = w.routines.length := by
    apply tally_eq_length
    intro g hg
    obtain ⟨post, hp⟩ := hok g hg
    rw [hp]
    rfl
  have hC : tally Pc.hasCounted w.routines = w.routines.length := by
    apply tally_eq_length
    intro g hg
    obtain ⟨post, hp⟩ := hok g hg
    rw [hp]
    rfl
  have hK : tally Pc.inCritical w.routines = 0 := by
    have : ∀ rs : List Goroutine, (∀ g ∈ rs, ∃ post, g.pc = .returned (.ok post)) →
        tally Pc.inCritical rs = 0 := by
      intro rs
      induction rs with
      | nil => intro _; rfl
      | cons a t ih =>
        intro h
        obtain ⟨post, hp⟩ := h a (by simp)
        have := ih (fun g hg => h g (by simp [hg]))
        unfold tally at this ⊢
        rw [List.map_cons, List.sum_cons, hp, this]
        rfl
    exact this _ hok
  refine ⟨by rw [h2, hA], by rw [h3, hC], ?_, hok⟩
  rw [hK] at h1
  cases hh : w.held with
  | false => rfl
  | true => simp [hh] at h1

theorem exists_critical (rs : List Goroutine) (h : tally Pc.inCritical rs ≠ 0) :
    ∃ g ∈ rs, g.pc.inCritical = 1 := by
  induction rs with
  | nil => exact absurd rfl h
  | cons a t ih =>
    by_cases ha : a.pc.inCritical = 1
    · exact ⟨a, by simp, ha⟩
    · have ha0 : a.pc.inCritical = 0 := by
        cases hpc : a.pc <;> simp [hpc, Pc.inCritical] at ha ⊢
      have : tally Pc.inCritical t ≠ 0 := by
        unfold tally at h ⊢
        simp only [List.map_cons, List.sum_cons, ha0] at h
        omega
      obtain ⟨g, hg, hc⟩ := ih this
      exact ⟨g, by simp [hg], hc⟩

/-- With the invariant there is no deadlock: as long as a call has not returned,
some goroutine can run its next statement. -/
theorem Inv_enabled (w : World) (hinv : w.Inv) (hnot : w.allReturned = false) :
    ∃ i, (w.stepAt i).isSome = true := by
  obtain ⟨h1, _, _, _, _, _⟩ := hinv
  have pick : ∀ g ∈ w.routines, (g.step w.store w.held).isSome = true →
      ∃ i, (w.stepAt i).isSome = true := by
    intro g hg hs
    obtain ⟨i, hi⟩ := List.getElem?_of_mem hg
    refine ⟨i, ?_⟩
    unfold World.stepAt
    rw [hi]
    cases hstep : g.step w.store w.held with
    | none => simp [hstep] at hs
    | some r =>
      obtain ⟨store, held, g1⟩ := r
      simp [hstep]
  cases hh : w.held with
  | true =>
    rw [hh] at h1
    obtain ⟨g, hg, hc⟩ := exists_critical w.routines (by rw [h1]; simp)
    apply pick g hg
    obtain ⟨content, pc⟩ := g
    cases pc <;> simp [Pc.inCritical] at hc <;> simp [Goroutine.step]
  | false =>
    rw [hh] at h1
    simp only [Bool.false_eq_true, if_false] at h1
    have hex : ∃ g ∈ w.routines, g.pc.isReturned = false := by
      unfold World.allReturned at hnot
      obtain ⟨g, hg, hr⟩ := List.all_eq_false.mp hnot
      exact ⟨g, hg, by simpa using hr⟩
    obtain ⟨g, hg, hr⟩ := hex
    have hc := tally_eq_zero _ _ h1 g hg
    apply pick g hg
    obtain ⟨content, pc⟩ := g
    cases pc <;> simp [Pc.inCritical] at hc <;> simp [Pc.isReturned] at hr
    · simp only [Goroutine.step]
      split_ifs <;> rfl
    · simp [Goroutine.step, hh]

/-- A goroutine that runs alone does what `CreatePost` does: after its six picks
it has returned the result of `CreatePost`, the store is the store after
`CreatePost`, and the mutex is free. -/
theorem solo_is_CreatePost (s : Store) (content : String) :
    World.exec { store := s, held := false, routines := [{ content := content, pc := .start }] }
        [0, 0, 0, 0, 0, 0] =
      { store := (CreatePost s content).2, held := false,
        routines := [{ content := content, pc := .returned (CreatePost s content).1 }] } := by
  rcases CreatePost_cases s content with ⟨h, hc⟩ | ⟨h1, h2, h3, hc⟩ | ⟨h1, h2, h3, hc⟩
  · rw [hc]
    simp [World.exec, World.stepAt, Goroutine.step, h]
  · rw [hc]
    have : ¬ (content = "" ∨ TrimSpace content = "") := by simp [h1, h2]
    simp [World.exec, World.stepAt, Goroutine.step, this, h3]
  · rw [hc]
    have : ¬ (content = "" ∨ TrimSpace content = "") := by simp [h1, h2]
    have h4 : ¬ (goLen content > 250) := by omega
    simp [World.exec, World.stepAt, Goroutine.step, this, h4]

theorem tally_remaining_launch (startup : Time) (contents : List String) :
    tally Pc.remaining (launch startup contents).routines = 6 * contents.length := by
  unfold launch tally
  induction contents with
  | nil => rfl
  | cons c t ih =>
    simp only [List.map_cons, List.sum_cons, List.length_cons] at ih ⊢
    rw [ih]
    simp only [Pc.remaining]
    omega

/-- C14: `M` calls of `CreatePost` with valid contents are launched on the empty
store and their statements are interleaved in any order, the mutex letting one
goroutine at a time between `Lock()` and the deferred `Unlock()`. Under every
schedule: once all calls have returned, the store holds exactly `M` posts with the
ids `1, 2, ..., M`, pairwise distinct, and the counter is `M + 1`; as long as some
call has not returned, some goroutine can run its next statement (no deadlock); and
every statement run uses up the statements left, of which there are `6 * M` at the
launch, so every interleaving comes to the point where all calls have returned. -/
theorem C14_concurrent_creates (startup : Time) (contents : List String) (schedule : List Nat)
    (hvalid : ∀ c ∈ contents, TrimSpace c ≠ "" ∧ goLen c ≤ 250) :
    (((launch startup contents).exec schedule).allReturned = true →
      ((launch startup contents).exec schedule).store.posts.map Post.ID =
        idsUpTo contents.length ∧
      (((launch startup contents).exec schedule).store.posts.map Post.ID).Nodup ∧
      ((launch startup contents).exec schedule).store.posts.length = contents.length ∧
      ((launch startup contents).exec schedule).store.postIDCounter =
        (contents.length : Int) + 1) ∧
    (((launch startup contents).exec schedule).allReturned = false →
      ∃ i, (((launch startup contents).exec schedule).stepAt i).isSome = true) ∧
    (∀ i w1, ((launch startup contents).exec schedule).stepAt i = some w1 →
      tally Pc.remaining w1.routines <
        tally Pc.remaining ((launch startup contents).exec schedule).routines) ∧
    tally Pc.remaining (launch startup contents).routines = 6 * contents.length := by
  have hinv := exec_Inv schedule (launch startup contents) (launch_Inv startup contents)
  have hcont : ((launch startup contents).exec schedule).routines.map Goroutine.content =
      contents := by
    rw [exec_contents]
    simp [launch, Function.comp_def]
  have hlen : ((launch startup contents).exec schedule).routines.length = contents.length := by
    have := congrArg List.length hcont
    simpa using this
  refine ⟨?_, Inv_enabled _ hinv, fun i w1 h => (stepAt_progress _ w1 i h).2,
    tally_remaining_launch startup contents⟩
  intro hall
  have hv : ∀ g ∈ ((launch startup contents).exec schedule).routines,
      TrimSpace g.content ≠ "" ∧ goLen g.content ≤ 250 := by
    intro g hg
    apply hvalid
    rw [← hcont]
    exact List.mem_map_of_mem Goroutine.content hg
  obtain ⟨h1, h2, _, _⟩ := Inv_all_returned _ hinv hall hv
  rw [hlen] at h1 h2
  refine ⟨h1, ?_, ?_, h2⟩
  · rw [h1]
    exact idsUpTo_nodup _
  · have := congrArg List.length h1
    simpa [idsUpTo] using this

/-- C14 at two calls whose statements are interleaved: the second call takes the
mutex first and gets id 1, the first call waits and gets id 2. -/
theorem C14_concurrent_creates_witness :
    ((launch 0 ["a", "b"]).exec [0, 1, 1, 0, 1, 0, 1, 1, 1, 0, 0, 0, 0, 0, 0]).allReturned = true ∧
    ((launch 0 ["a", "b"]).exec [0, 1, 1, 0, 1, 0, 1, 1, 1, 0, 0, 0, 0, 0, 0]).store.posts.map
        Post.Content = ["b", "a"] ∧
    (((launch 0 ["a", "b"]).exec [0, 1, 1, 0, 1, 0, 1, 1, 1, 0, 0, 0, 0, 0, 0]).store.posts.map
        Post.ID = idsUpTo 2 ∧
      (((launch 0 ["a", "b"]).exec [0, 1, 1, 0, 1, 0, 1, 1, 1, 0, 0, 0, 0, 0, 0]).store.posts.map
        Post.ID).Nodup ∧
      ((launch 0 ["a", "b"]).exec [0, 1, 1, 0, 1, 0, 1, 1, 1, 0, 0, 0, 0, 0, 0]).store.posts.length
        = 2 ∧
      ((launch 0 ["a", "b"]).exec [0, 1, 1, 0, 1, 0, 1, 1, 1, 0, 0, 0, 0, 0, 0]).store.postIDCounter
        = ((2 : Nat) : Int) + 1) :=
  ⟨by decide, by decide,
   (C14_concurrent_creates 0 ["a", "b"] [0, 1, 1, 0, 1, 0, 1, 1, 1, 0, 0, 0, 0, 0, 0]
      (by decide)).1 (by decide)⟩

/-! ## The start-up time snapshot -/

/-- No call writes the package variable `now`. -/
theorem call_now (s : Store) (op : Op) : (call s op).2.now = s.now := by
  cases op with
  | createPost content =>
    rcases CreatePost_cases s content with ⟨_, h⟩ | ⟨_, _, _, h⟩ | ⟨_, _, _, h⟩ <;>
      simp [call, h]
  | updatePost id newContent clock =>
    rcases UpdatePost_cases s id newContent clock with ⟨_, h⟩ | ⟨_, _, h⟩ | ⟨_, _, _, h⟩ |
      ⟨_, _, pre, p, suf, _, _, _, h⟩ <;> simp [call, h]
  | getAllPosts => simp [call, GetAllPosts]
  | likePost id =>
    rcases LikePost_cases s id with ⟨_, h⟩ | ⟨pre, p, suf, _, _, _, h⟩ <;> simp [call, h]
  | getPostDetailsByID id => simp [call, GetPostDetailsByID_store]
  | addComment postID comment =>
    rcases AddComment_cases s postID comment with ⟨_, h⟩ | ⟨_, _, h⟩ | ⟨_, _, _, h⟩ |
      ⟨_, _, pre, p, suf, _, _, _, h⟩ <;> simp [call, h]

/-- One call keeps this: every stored post and every stored comment has the value
of `now` as its creation time. -/
theorem call_created_at_now (s : Store) (op : Op)
    (hs : ∀ p ∈ s.posts, p.CreatedAt = s.now ∧ ∀ c ∈ p.Comments, c.CreatedAt = s.now) :
    ∀ p ∈ (call s op).2.posts, p.CreatedAt = s.now ∧ ∀ c ∈ p.Comments, c.CreatedAt = s.now := by
  have mid : ∀ (pre suf : List Post) (p q : Post), s.posts = pre ++ p :: suf →
      (q.CreatedAt = s.now ∧ ∀ c ∈ q.Comments, c.CreatedAt = s.now) →
      ∀ r ∈ pre ++ q :: suf, r.CreatedAt = s.now ∧ ∀ c ∈ r.Comments, c.CreatedAt = s.now := by
    intro pre suf p q hsplit hq r hr
    simp only [List.mem_append, List.mem_cons] at hr
    rcases hr with h1 | rfl | h1
    · exact hs r (by rw [hsplit]; simp [h1])
    · exact hq
    · exact hs r (by rw [hsplit]; simp [h1])
  cases op with
  | createPost content =>
    rcases CreatePost_cases s content with ⟨_, h⟩ | ⟨_, _, _, h⟩ | ⟨_, _, _, h⟩
    · simpa [call, h] using hs
    · simpa [call, h] using hs
    · simp only [call, h]
      intro r hr
      rcases List.mem_append.mp hr with h1 | h1
      · exact hs r h1
      · rw [List.mem_singleton] at h1
        rw [h1]
        simp
  | updatePost id newContent clock =>
    rcases UpdatePost_cases s id newContent clock with ⟨_, h⟩ | ⟨_, _, h⟩ | ⟨_, _, _, h⟩ |
      ⟨_, _, pre, p, suf, hsplit, _, _, h⟩
    · simpa [call, h] using hs
    · simpa [call, h] using hs
    · simpa [call, h] using hs
    · simp only [call, h]
      exact mid pre suf p _ hsplit (hs p (by rw [hsplit]; simp))
  | getAllPosts => simpa [call, GetAllPosts] using hs
  | likePost id =>
    rcases LikePost_cases s id with ⟨_, h⟩ | ⟨pre, p, suf, hsplit, _, _, h⟩
    · simpa [call, h] using hs
    · simp only [call, h]
      exact mid pre suf p _ hsplit (hs p (by rw [hsplit]; simp))
  | getPostDetailsByID id => simpa [call, GetPostDetailsByID_store] using hs
  | addComment postID comment =>
    rcases AddComment_cases s postID comment with ⟨_, h⟩ | ⟨_, _, h⟩ | ⟨_, _, _, h⟩ |
      ⟨_, _, pre, p, suf, hsplit, _, _, h⟩
    · simpa [call, h] using hs
    · simpa [call, h] using hs
    · simpa [call, h] using hs
    · simp only [call, h]
      have hp := hs p (by rw [hsplit]; simp)
      refine mid pre suf p _ hsplit ⟨hp.1, ?_⟩
      intro c hc
      rcases List.mem_append.mp hc with h1 | h1
      · exact hp.2 c h1
      · rw [List.mem_singleton] at h1
        rw [h1]

theorem run_created_at_now (ops : List Op) : ∀ s : Store,
    (∀ p ∈ s.posts, p.CreatedAt = s.now ∧ ∀ c ∈ p.Comments, c.CreatedAt = s.now) →
    (run s ops).now = s.now ∧
    ∀ p ∈ (run s ops).posts, p.CreatedAt = s.now ∧ ∀ c ∈ p.Comments, c.CreatedAt = s.now := by
  induction ops with
  | nil =>
    intro s hs
    exact ⟨rfl, hs⟩
  | cons op ops ih =>
    intro s hs
    have hnow := call_now s op
    have hstep := call_created_at_now s op hs
    rw [← hnow] at hstep
    have := ih (call s op).2 hstep
    rw [hnow] at this
    exact this

/-- C21: the package variable `now` is set once, at start-up, and no call changes
it. `CreatePost` gives a new post this value as creation and update time and
`AddComment` gives a new comment this value as creation time, whatever the calls
made before and whenever the call is made (the operations take no other clock, and
the clock reading of `UpdatePost` only goes to the update time). So on every store
reached from the initial one all posts have the same creation time, the start-up
snapshot, and every comment has it too. -/
theorem C21_created_at_is_startup_snapshot (startup : Time) (ops : List Op) :
    (run (initStore startup) ops).now = startup ∧
    (∀ p ∈ (run (initStore startup) ops).posts,
      p.CreatedAt = startup ∧ ∀ c ∈ p.Comments, c.CreatedAt = startup) ∧
    (∀ p ∈ (run (initStore startup) ops).posts, ∀ q ∈ (run (initStore startup) ops).posts,
      p.CreatedAt = q.CreatedAt) ∧
    (∀ content post, (CreatePost (run (initStore startup) ops) content).1 = .ok post →
      post.CreatedAt = startup ∧ post.UpdatedAt = startup) ∧
    (∀ postID comment post,
      (AddComment (run (initStore startup) ops) postID comment).1 = .ok post →
      ∃ earlier added, post.Comments = earlier ++ [added] ∧ added.CreatedAt = startup ∧
        added.Text = comment.Text) := by
  have h := run_created_at_now ops (initStore startup) (by simp [initStore])
  simp only [initStore] at h
  obtain ⟨hnow, hall⟩ := h
  refine ⟨hnow, hall, ?_, ?_, ?_⟩
  · intro p hp q hq
    rw [(hall p hp).1, (hall q hq).1]
  · intro content post hpost
    rcases CreatePost_cases (run (initStore startup) ops) content with
      ⟨_, h⟩ | ⟨_, _, _, h⟩ | ⟨_, _, _, h⟩
    · rw [h] at hpost
      simp at hpost
    · rw [h] at hpost
      simp at hpost
    · rw [h] at hpost
      injection hpost with hpost
      subst hpost
      exact ⟨hnow, hnow⟩
  · intro postID comment post hpost
    rcases AddComment_cases (run (initStore startup) ops) postID comment with
      ⟨_, h⟩ | ⟨_, _, h⟩ | ⟨_, _, _, h⟩ | ⟨_, _, pre, p, suf, _, _, _, h⟩
    · rw [h] at hpost
      simp at hpost
    · rw [h] at hpost
      simp at hpost
    · rw [h] at hpost
      simp at hpost
    · rw [h] at hpost
      injection hpost with hpost
      subst hpost
      exact ⟨p.Comments, _, rfl, hnow, rfl⟩

/-- C21 after a run with a create, an update at clock 50, a comment and a second
create: both posts and the comment carry the start-up time 4. -/
theorem C21_created_at_is_startup_snapshot_witness :
    (run (initStore 4)
      [.createPost "a", .updatePost 1 "a2" 50,
       .addComment 1 { ID := 0, Text := "x", CreatedAt := 99 }, .createPost "b"]).posts =
      [{ ID := 1, Content := "a2", Likes := 0,
         Comments := [{ ID := 1, Text := "x", CreatedAt := 4 }], CreatedAt := 4, UpdatedAt := 50 },
       { ID := 2, Content := "b", Likes := 0, Comments := [], CreatedAt := 4, UpdatedAt := 4 }] ∧
    (∀ p ∈ (run (initStore 4)
      [.createPost "a", .updatePost 1 "a2" 50,
       .addComment 1 { ID := 0, Text := "x", CreatedAt := 99 }, .createPost "b"]).posts,
      p.CreatedAt = 4 ∧ ∀ c ∈ p.Comments, c.CreatedAt = 4) :=
  ⟨by decide,
   (C21_created_at_is_startup_snapshot 4
      [.createPost "a", .updatePost 1 "a2" 50,
       .addComment 1 { ID := 0, Text := "x", CreatedAt := 99 }, .createPost "b"]).2.1⟩

end MiniSocial
